import Mathlib

/-!
Verification of the `render` package of the gocyto repository: the
call-graph-to-Cytoscape transformation (identity registry, hierarchy
construction, colouring, edge filtering and JSON assembly).

The Go code is shallowly embedded: each Go function of `render` becomes a
Lean definition of the same name; the mutable `*CytoGraph` receiver becomes
explicit state passing; Go maps become association lists (inserts happen
only for absent keys, so a cons-based model agrees with Go map semantics);
`uint64` counters stay within `Nat` (no overflow is reachable);
fallibility is an explicit `Option String` error component.  External
collaborators (the `go/build` root lookup, the analysis engine's
`callgraph` types) are modelled by the data they expose to this package.
-/

namespace Render

/-! ## The data exposed by the external collaborators

`go/types`, `go/ssa` and `golang.org/x/tools/go/callgraph` objects are
modelled by the fields this package reads from them. -/

/-! ## The CytoGraph model -/

/-! ## Registry invariant: recorded IDs carry strictly decreasing counter
values, all at most the current counter. -/

/-! ## Colour model

`float64` colour arithmetic is modelled by exact rational arithmetic.
Fractions are kept unnormalized (`num/den`, denominators positive at every
use site) so that all computations reduce in the kernel; rational equality
is the cross-multiplication relation `Req`. -/

/-! ## Node and edge processing -/

/-! ## JSON serialization (`encoding/json` with `Encoder.Encode`) -/

/-! ## Definitions -/

/-- Association-list lookup, modelling Go map indexing `m[k]`. -/
def alookup {α β : Type} [DecidableEq α] : List (α × β) → α → Option β
  | [], _ => none
  | e :: rest, k => if k = e.1 then some e.2 else alookup rest k

/-- Digit extraction worker, structurally recursive on a fuel argument so
that every computation reduces inside the kernel. -/
def baseDigitsAux (b : Nat) : Nat → Nat → List Nat
  | 0, _ => []
  | fuel+1, n => if n = 0 then [] else baseDigitsAux b fuel (n / (b+2)) ++ [n % (b+2)]

/-- Digits of `n` in base `b+2`, most significant first (`[]` for `0`).
The base is written as `b+2` only to keep the recursion well-fuelled;
`baseDigits 14` is base 16, `baseDigits 8` is base 10. -/
def baseDigits (b n : Nat) : List Nat := baseDigitsAux b n n

/-- The digit characters `0-9a-f` used by `strconv.FormatUint(..., 16)`. -/
def digitCharLower (d : Nat) : Char :=
  if d < 10 then Char.ofNat (48 + d) else Char.ofNat (87 + d)

/-- `strconv.FormatUint(n, 16)`: lowercase hexadecimal rendering. -/
def FormatUint16 (n : Nat) : String :=
  if n = 0 then ("0") else String.mk ((baseDigits 14 n).map digitCharLower)

/-- Decimal rendering of a natural number, as `fmt.Sprintf("%d", n)`. -/
def FormatNat10 (n : Nat) : String :=
  if n = 0 then ("0") else String.mk ((baseDigits 8 n).map digitCharLower)

/-- A `*types.Package`: import path and short name. -/
structure GoPackage where
  path : String
  name : String
deriving DecidableEq

/-- A receiver variable (`*types.Var`), as read by `ProcessRecv`:
declaring package, full type string (`recv.Type().String()`), and the
`Embedded`/`IsField`/`Exported` flags. -/
structure Var where
  pkg : GoPackage
  typeString : String
  embedded : Bool
  isField : Bool
  exported : Bool
deriving DecidableEq

/-- The source-level object of a function (`types.Func`); `Func.Object()`
returns nil for wrappers and anonymous functions, modelled as `none` at
the use site. -/
structure FuncObject where
  exported : Bool
deriving DecidableEq

/-- A `*types.Signature`: parameter and result type strings and the
optional receiver. -/
structure Signature where
  params : List String
  results : List String
  recv : Option Var
deriving DecidableEq

/-- An `*ssa.Function`, by the fields the render package reads:
`Pkg` (nil for shared functions), `Synthetic`, `Object()`,
`RelString(own package)` (the value `nodeFullName` computes),
`Signature`, and whether `Parent()` is non-nil. -/
structure Func where
  pkg : Option GoPackage
  synthetic : String
  obj : Option FuncObject
  relString : String
  sig : Signature
  parentFn : Bool
deriving DecidableEq

/-- A `*callgraph.Node`. -/
structure Node where
  func : Func
deriving DecidableEq

/-- A `*callgraph.Edge`: caller, callee, source position (`Pos()`, a
non-negative `token.Pos`) and the call-kind description string. -/
structure Edge where
  caller : Node
  callee : Node
  pos : Nat
  description : String
deriving DecidableEq

/-- The `go/build` environment: `build.Import(path, "", 0).Goroot`,
an external lookup keyed on the import path. -/
structure BuildEnv where
  goroot : String → Bool

structure RenderOptions where
  IncludeGoRoot : Bool
  IncludeUnexported : Bool
deriving DecidableEq

/-- Dereference of `Func.Pkg` (`node.Func.Pkg.Pkg`); in Go a nil `Pkg`
here would panic, which is unreachable on the nodes this package touches
(the shared-root caller is filtered, non-synthetic callees have a
package), so the junk value stands in for the nil dereference. -/
def Func.pkgD (f : Func) : GoPackage := f.pkg.getD ⟨"", ""⟩

def isShared (edge : Edge) : Bool := edge.caller.func.pkg.isNone

def isSynthetic (edge : Edge) : Bool := edge.callee.func.synthetic != ""

def inGoRoot (env : BuildEnv) (node : Node) : Bool := env.goroot node.func.pkgD.path

def isUnexported (node : Node) : Bool :=
  match node.func.obj with
  | some obj => !obj.exported
  | none => false

def isGlobal (node : Node) : Bool := !node.func.parentFn

abbrev CytoID := String

structure NodeData where
  id : CytoID
  label : String
  description : Option String
  parent : CytoID
  color : String
deriving DecidableEq

structure CytoNode where
  data : NodeData
  classes : List String
deriving DecidableEq

structure EdgeData where
  id : CytoID
  source : CytoID
  target : CytoID
deriving DecidableEq

structure CytoEdge where
  data : EdgeData
  classes : List String
deriving DecidableEq

/-- The graph state: ID counter, key-to-ID map, and the node and edge
collections (Go maps keyed by `CytoID`). -/
structure CytoGraph where
  idCounter : Nat
  idMap : List (String × CytoID)
  Nodes : List (CytoID × CytoNode)
  Edges : List (CytoID × CytoEdge)
deriving DecidableEq

def NewCytoGraph : CytoGraph := ⟨0, [], [], []⟩

/-- The ID string allocated for counter value `c`: prefix `n` for the node
namespace, `e` for the edge namespace, then the counter in hex. -/
def mkId (isNode : Bool) (c : Nat) : CytoID :=
  (if isNode then ("n") else ("e")) ++ FormatUint16 c

/-- `(cg *CytoGraph) GetID`: return the existing ID for `fullName`, or
allocate a fresh one from the incremented counter and record it. -/
def GetID (cg : CytoGraph) (fullName : String) (isNode : Bool) : (Bool × CytoID) × CytoGraph :=
  match alookup cg.idMap fullName with
  | some id => ((false, id), cg)
  | none =>
    let id := mkId isNode (cg.idCounter + 1)
    ((true, id),
      { cg with idCounter := cg.idCounter + 1, idMap := (fullName, id) :: cg.idMap })

/-- Running a sequence of `GetID` requests, for stating registry
properties over reachable registries. -/
def runGetIDs (cg : CytoGraph) : List (String × Bool) → CytoGraph
  | [] => cg
  | (k, b) :: rest => runGetIDs (GetID cg k b).2 rest

def IdsBelow : List (String × CytoID) → Nat → Prop
  | [], _ => True
  | e :: rest, n => ∃ b c, 1 ≤ c ∧ c ≤ n ∧ e.2 = mkId b c ∧ IdsBelow rest (c - 1)

structure Frac where
  num : Int
  den : Int
deriving DecidableEq

instance : Add Frac := ⟨fun a b => ⟨a.num * b.den + b.num * a.den, a.den * b.den⟩⟩

instance : Sub Frac := ⟨fun a b => ⟨a.num * b.den - b.num * a.den, a.den * b.den⟩⟩

instance : Mul Frac := ⟨fun a b => ⟨a.num * b.num, a.den * b.den⟩⟩

instance : Div Frac := ⟨fun a b => ⟨a.num * b.den, a.den * b.num⟩⟩

def Frac.ofInt (n : Int) : Frac := ⟨n, 1⟩

/-- `a <= b` on fractions with positive denominators. -/
def fle (a b : Frac) : Bool := decide (a.num * b.den ≤ b.num * a.den)

/-- Equality of fractions as rational numbers (the value-level equality
float comparison observes). -/
def Frac.Req (a b : Frac) : Prop := a.num * b.den = b.num * a.den

instance (a b : Frac) : Decidable (a.Req b) := by unfold Frac.Req; infer_instance

/-- Truncation toward zero, as Go `float64`-to-integer truncation inside
`math.Mod` (denominators are positive at every use site). -/
def ftrunc (a : Frac) : Int := a.num.tdiv a.den

/-- `math.Mod(x, y)`: `x - y * trunc(x/y)`. -/
def gomod (x y : Frac) : Frac := x - y * Frac.ofInt (ftrunc (x / y))

/-- go-colorful's `interp_angle`: shortest-arc hue interpolation. -/
def interpAngle (a0 a1 t : Frac) : Frac :=
  let delta := gomod (gomod (a1 - a0) (Frac.ofInt 360) + Frac.ofInt 540) (Frac.ofInt 360)
    - Frac.ofInt 180
  gomod (a0 + t * delta + Frac.ofInt 360) (Frac.ofInt 360)

/-- A colour, represented by its exact H/C/L coordinates.  go-colorful's
`BlendHcl` converts its endpoints to the HCL space and back; colours are
modelled directly in that space, abstracting the float rounding of the
sRGB round-trip and the final in-gamut clamp. -/
structure Color where
  h : Frac
  c : Frac
  l : Frac
deriving DecidableEq

/-- Colour equality as rational values, componentwise. -/
def Color.Req (x y : Color) : Prop := x.h.Req y.h ∧ x.c.Req y.c ∧ x.l.Req y.l

instance (x y : Color) : Decidable (x.Req y) := by unfold Color.Req; infer_instance

/-- `(col1 Color) BlendHcl(col2, t)` of go-colorful (the library's
documented behaviour): hue interpolated along the shortest arc, chroma and
luminance linearly, with weight `t` toward `col2`. -/
def Color.BlendHcl (col1 col2 : Color) (t : Frac) : Color :=
  ⟨interpAngle col1.h col2.h t,
   col1.c * (Frac.ofInt 1 - t) + col2.c * t,
   col1.l * (Frac.ofInt 1 - t) + col2.l * t⟩

/-- Modelled from the spec: `MustParseHex("#3D4CC4")` comes from the
repository's `render/colors.go`, which is not among the provided sources;
the default colour is a fixed constant, whose HCL coordinates are chosen
arbitrarily (no verified property depends on the value). -/
def defaultColor : Color := ⟨Frac.ofInt 285, Frac.ofInt 65, Frac.ofInt 35⟩

structure GradientKeypoint where
  Col : Color
  Pos : Frac

/-- Modelled from the spec: the `keypoints` gradient table is defined in
the repository's `render/colors.go`, which is not among the provided
sources.  Per the spec it is a continuous perceptual colour gradient over
positions in `[0,1]`; it is modelled as a two-keypoint table (hues equal,
so every go-colorful version blends it identically). -/
def keypoints : List GradientKeypoint :=
  [⟨⟨Frac.ofInt 0, Frac.ofInt 20, Frac.ofInt 10⟩, Frac.ofInt 0⟩,
   ⟨⟨Frac.ofInt 0, Frac.ofInt 80, Frac.ofInt 90⟩, Frac.ofInt 1⟩]

/-- Modelled from the spec: `GradientTable.GetInterpolatedColorFor` from
`render/colors.go` (not among the provided sources) finds the keypoint
segment containing `t` and blends its two endpoint colours with
`BlendHcl`. -/
def gradientLookup : List GradientKeypoint → Frac → Color
  | k1 :: k2 :: rest, t =>
    if fle k1.Pos t && fle t k2.Pos then
      k1.Col.BlendHcl k2.Col ((t - k1.Pos) / (k2.Pos - k1.Pos))
    else gradientLookup (k2 :: rest) t
  | [k], _ => k.Col
  | [], _ => defaultColor

def GetInterpolatedColorFor (t : Frac) : Color := gradientLookup keypoints t

/-- FNV-1 32-bit hash (`hash/fnv.New32`), folded over the code points of
the string (byte-identical to Go on ASCII data; no verified property
depends on the values at non-ASCII input). -/
def stringToIntHash (v : String) : Nat :=
  v.data.foldl (fun h ch => (h * 16777619) % 4294967296 ^^^ ch.toNat) 2166136261

def tupleToIntHashes (tup : List String) : List Nat := tup.map stringToIntHash

/-- `integersToColor`: the default colour for no values; for one value the
gradient colour directly (the `t == 1.0` early return); otherwise each
value's gradient colour blended onto the running mix, starting from black
(`colorful.Color{0,0,0}`, which is the HCL origin), with weight 0.7 for
the incoming colour. -/
def integersToColor (values : List Nat) : Color :=
  match values with
  | [] => defaultColor
  | [p] => GetInterpolatedColorFor ⟨(p : Int), 4294967295⟩
  | l@(_ :: _ :: _) =>
    l.foldl
      (fun mix p => (GetInterpolatedColorFor ⟨(p : Int), 4294967295⟩).BlendHcl mix ⟨3, 10⟩)
      ⟨Frac.ofInt 0, Frac.ofInt 0, Frac.ofInt 0⟩

def intStr (n : Int) : String :=
  match n with
  | Int.ofNat m => FormatNat10 m
  | Int.negSucc m => ("-") ++ FormatNat10 (m + 1)

def fracStr (a : Frac) : String := intStr a.num ++ ("/") ++ intStr a.den

/-- Modelled from the spec: `Color.Hex()` renders a colour as a
deterministic `#`-prefixed string; the sRGB conversion it performs is
external floating-point code, modelled as a deterministic rendering of
the exact coordinates. -/
def Color.Hex (c : Color) : String :=
  ("#") ++ fracStr c.h ++ (";") ++ fracStr c.c ++ (";") ++ fracStr c.l

def signatureToColorHex (sig : Signature) : String :=
  let params := integersToColor (tupleToIntHashes sig.params)
  let results := integersToColor (tupleToIntHashes sig.results)
  (params.BlendHcl results ⟨1, 2⟩).Hex

def nodeFullName (node : Node) : String := node.func.relString

/-- Index (in code points) of the last `.` in a list of characters, as
`strings.LastIndex(s, ".")` (all strings reaching it are ASCII-clean in
practice, where byte and code-point indices agree). -/
def lastDotIdx : List Char → Option Nat
  | [] => none
  | ch :: rest =>
    match lastDotIdx rest with
    | some i => some (i + 1)
    | none => if ch = '.' then some 0 else none

/-- `ProcessNode`'s label: `funcName[last:]` (keeping the dot) when a dot
occurs, the whole name otherwise. -/
def funcLabel (funcName : String) : String :=
  match lastDotIdx funcName.data with
  | some i => String.mk (funcName.data.drop i)
  | none => funcName

/-- `ProcessRecv`'s label stripping: `label[last+1:]` after the last dot. -/
def recvLabel (s : String) : String :=
  match lastDotIdx s.data with
  | some i => String.mk (s.data.drop (i + 1))
  | none => s

/-- `strings.Split(s, " ")`, on code points. -/
def splitOnSpace : List Char → List (List Char)
  | [] => [[]]
  | ch :: rest =>
    match splitOnSpace rest with
    | [] => [[]]
    | cur :: done => if ch = ' ' then [] :: cur :: done else (ch :: cur) :: done

def splitSpace (s : String) : List String := (splitOnSpace s.data).map String.mk

def pkgFullName (pkg : GoPackage) : String := ("pkg ~ ") ++ pkg.path

def recvFullName (recv : Var) : String :=
  ("recv ~ ") ++ recv.pkg.path ++ (" ~ ") ++ recv.typeString

def funcFullName (node : Node) : String := ("func ~ ") ++ nodeFullName node

def edgeFullName (edge : Edge) : String :=
  ("call @") ++ FormatNat10 edge.pos ++ (" ~ ") ++ nodeFullName edge.caller
    ++ (" -> ") ++ nodeFullName edge.callee

/-- `(cg *CytoGraph) ProcessPkg`. -/
def ProcessPkg (cg : CytoGraph) (pkg : GoPackage) : CytoID × CytoGraph :=
  match GetID cg (pkgFullName pkg) true with
  | ((false, id), cg1) => (id, cg1)
  | ((true, id), cg1) =>
    let cNode : CytoNode :=
      { data := { id := id, label := pkg.name, description := some pkg.path, parent := (""),
                  color := (integersToColor [stringToIntHash pkg.name]).Hex },
        classes := [("package")] }
    (id, { cg1 with Nodes := (id, cNode) :: cg1.Nodes })

/-- `(cg *CytoGraph) ProcessRecv`. -/
def ProcessRecv (cg : CytoGraph) (recv : Var) : CytoID × CytoGraph :=
  match GetID cg (recvFullName recv) true with
  | ((false, id), cg1) => (id, cg1)
  | ((true, id), cg1) =>
    let pr := ProcessPkg cg1 recv.pkg
    let classes := [("type")]
      ++ (if recv.embedded then [("embedded")] else [])
      ++ (if recv.isField then [("field")] else [])
      ++ (if !recv.exported then [("unexported2")] else [])
    let cNode : CytoNode :=
      { data := { id := id, label := recvLabel recv.typeString, description := none,
                  parent := pr.1,
                  color := (integersToColor [stringToIntHash recv.typeString]).Hex },
        classes := classes }
    (id, { pr.2 with Nodes := (id, cNode) :: pr.2.Nodes })

/-- `(cg *CytoGraph) ProcessNode`: the package node is always processed
first; a receiver's type node then overwrites the parent. -/
def ProcessNode (env : BuildEnv) (cg : CytoGraph) (node : Node) : CytoID × CytoGraph :=
  match GetID cg (funcFullName node) true with
  | ((false, id), cg1) => (id, cg1)
  | ((true, id), cg1) =>
    let pr := ProcessPkg cg1 node.func.pkgD
    let rr := match node.func.sig.recv with
      | some recv => ProcessRecv pr.2 recv
      | none => (pr.1, pr.2)
    let classes := (if inGoRoot env node then [("go_root")] else [])
      ++ (if isGlobal node then [("global")] else [])
      ++ (if isUnexported node then [("unexported")] else [])
    let cNode : CytoNode :=
      { data := { id := id, label := funcLabel (nodeFullName node), description := none,
                  parent := rr.1, color := signatureToColorHex node.func.sig },
        classes := classes }
    (id, { rr.2 with Nodes := (id, cNode) :: rr.2.Nodes })

/-- `(cg *CytoGraph) ProcessEdge`: keyed by call position and both
endpoint names; creates both endpoint nodes, then the edge entry. -/
def ProcessEdge (env : BuildEnv) (cg : CytoGraph) (edge : Edge) : CytoID × CytoGraph :=
  match GetID cg (edgeFullName edge) true with
  | ((false, id), cg1) => (id, cg1)
  | ((true, id), cg1) =>
    let c1 := ProcessNode env cg1 edge.caller
    let c2 := ProcessNode env c1.2 edge.callee
    let cEdge : CytoEdge :=
      { data := { id := id, source := c1.1, target := c2.1 },
        classes := splitSpace edge.description }
    (id, { c2.2 with Edges := (id, cEdge) :: c2.2.Edges })

/-- The per-edge visitor body of `LoadCallGraph`: filter, then process.
The callback's error result is always `nil`. -/
def visitEdge (env : BuildEnv) (opts : RenderOptions) (cg : CytoGraph) (edge : Edge) :
    Option String × CytoGraph :=
  if isSynthetic edge || isShared edge then (none, cg)
  else if !opts.IncludeGoRoot && inGoRoot env edge.callee then (none, cg)
  else if !opts.IncludeUnexported && isUnexported edge.callee then (none, cg)
  else (none, (ProcessEdge env cg edge).2)

/-- `callgraph.GraphVisitEdges` (external library): visits each edge once,
stopping at the first non-nil error of the callback. -/
def GraphVisitEdges (edges : List Edge)
    (f : CytoGraph → Edge → Option String × CytoGraph) (cg : CytoGraph) :
    Option String × CytoGraph :=
  match edges with
  | [] => (none, cg)
  | e :: rest =>
    match f cg e with
    | (some err, cg1) => (some err, cg1)
    | (none, cg1) => GraphVisitEdges rest f cg1

/-- `(cg *CytoGraph) LoadCallGraph`: `edges` is the edge sequence the
external `GraphVisitEdges` presents, after the external
`DeleteSyntheticNodes` preprocessing of the analysis graph. -/
def LoadCallGraph (env : BuildEnv) (cg : CytoGraph) (edges : List Edge)
    (opts : RenderOptions) : Option String × CytoGraph :=
  GraphVisitEdges edges (visitEdge env opts) cg

/-- The four admission conditions of `LoadCallGraph`'s visitor, as one
predicate. -/
def admitted (env : BuildEnv) (opts : RenderOptions) (edge : Edge) : Bool :=
  !(isSynthetic edge || isShared edge)
    && (opts.IncludeGoRoot || !inGoRoot env edge.callee)
    && (opts.IncludeUnexported || !isUnexported edge.callee)

/-- Go `encoding/json` string escaping (HTML escaping on, as in the
default encoder). -/
def jsonEscapeChar (ch : Char) : List Char :=
  if ch = '"' then ['\\', '"']
  else if ch = '\\' then ['\\', '\\']
  else if ch = '\n' then ['\\', 'n']
  else if ch = '\r' then ['\\', 'r']
  else if ch = '\t' then ['\\', 't']
  else if ch = '<' then ['\\', 'u', '0', '0', '3', 'c']
  else if ch = '>' then ['\\', 'u', '0', '0', '3', 'e']
  else if ch = '&' then ['\\', 'u', '0', '0', '2', '6']
  else if ch.toNat < 32 then
    ['\\', 'u', '0', '0', digitCharLower (ch.toNat / 16), digitCharLower (ch.toNat % 16)]
  else [ch]

def jsonQuote (s : String) : String :=
  ("\"") ++ String.mk ((s.data.map jsonEscapeChar).flatten) ++ ("\"")

def joinSep (sep : String) : List String → String
  | [] => ("")
  | [x] => x
  | x :: y :: rest => x ++ sep ++ joinSep sep (y :: rest)

/-- A Go slice as JSON: nil (the only empty slice this package builds)
marshals as `null`. -/
def sliceJson (elems : List String) : String :=
  match elems with
  | [] => ("null")
  | l => ("[") ++ joinSep (",") l ++ ("]")

def nodeDataJson (d : NodeData) : String :=
  ("\x7b\"id\":") ++ jsonQuote d.id ++ (",\"label\":") ++ jsonQuote d.label
    ++ (match d.description with
        | some s => (",\"description\":") ++ jsonQuote s
        | none => (""))
    ++ (",\"parent\":") ++ jsonQuote d.parent
    ++ (",\"color\":") ++ jsonQuote d.color ++ ("\x7d")

def cytoNodeJson (n : CytoNode) : String :=
  ("\x7b\"data\":") ++ nodeDataJson n.data
    ++ (",\"classes\":") ++ sliceJson (n.classes.map jsonQuote) ++ ("\x7d")

def edgeDataJson (d : EdgeData) : String :=
  ("\x7b\"id\":") ++ jsonQuote d.id ++ (",\"source\":") ++ jsonQuote d.source
    ++ (",\"target\":") ++ jsonQuote d.target ++ ("\x7d")

def cytoEdgeJson (e : CytoEdge) : String :=
  ("\x7b\"data\":") ++ edgeDataJson e.data
    ++ (",\"classes\":") ++ sliceJson (e.classes.map jsonQuote) ++ ("\x7d")

/-- `(cg *CytoGraph) WriteJson`: serializes the node and edge collections.
Go iterates its maps in an unspecified order, so the orders are explicit
parameters here; a run of the Go code corresponds to some pair of
permutations of the stored keys.  `Encoder.Encode` appends a newline. -/
def WriteJson (cg : CytoGraph) (nodeOrder edgeOrder : List CytoID) : String :=
  let nodes := nodeOrder.filterMap (fun id => alookup cg.Nodes id)
  let edges := edgeOrder.filterMap (fun id => alookup cg.Edges id)
  ("\x7b\"nodes\":") ++ sliceJson (nodes.map cytoNodeJson)
    ++ (",\"edges\":") ++ sliceJson (edges.map cytoEdgeJson) ++ ("\x7d\n")

/-- The stored node keys, in insertion order (the set a Go map range
enumerates in unspecified order). -/
def nodeKeys (cg : CytoGraph) : List CytoID := cg.Nodes.map Prod.fst

def edgeKeys (cg : CytoGraph) : List CytoID := cg.Edges.map Prod.fst

/-- Keys of the `func ~` / `recv ~` / `pkg ~` families: everything except
the `call @` edge-key family. -/
def NotCallKey (k : String) : Prop := k.data.head? ≠ some 'c'

/-- IDs whose counter component is positive and at most `n`: exactly the
IDs the registry can have allocated while its counter was at most `n`. -/
def lowId (n : Nat) (i : CytoID) : Prop := ∃ b c, 1 ≤ c ∧ c ≤ n ∧ i = mkId b c

/-- How one graph state extends another across a processing step: old
bindings survive, new bindings satisfy `P`, the counter grows, the
registry invariant is preserved, previously-allocated node slots are
untouched, and edge entries survive. -/
structure Extends (cg cg' : CytoGraph) (P : String → Prop) : Prop where
  keep : ∀ k i, alookup cg.idMap k = some i → alookup cg'.idMap k = some i
  fresh : ∀ k i, alookup cg'.idMap k = some i → alookup cg.idMap k = some i ∨ P k
  ctr : cg.idCounter ≤ cg'.idCounter
  below : IdsBelow cg.idMap cg.idCounter → IdsBelow cg'.idMap cg'.idCounter
  nodesKeep : ∀ i, lowId cg.idCounter i → alookup cg'.Nodes i = alookup cg.Nodes i
  edgesSome : ∀ i, (alookup cg.Edges i).isSome → (alookup cg'.Edges i).isSome

/-- Every recorded edge key has its edge entry stored: the synchronisation
between `idMap` and `Edges` that `ProcessEdge` maintains. -/
def ES (cg : CytoGraph) : Prop :=
  ∀ k i, k.data.head? = some 'c' → alookup cg.idMap k = some i →
    (alookup cg.Edges i).isSome

/-- The edge for `e`'s call-site key is present in the output graph. -/
def edgePresent (cg : CytoGraph) (e : Edge) : Prop :=
  ∃ i, alookup cg.idMap (edgeFullName e) = some i ∧ (alookup cg.Edges i).isSome

/-- Strings without a space character; Go import paths satisfy this. -/
def SpaceFree (s : String) : Prop := ' ' ∉ s.data

/-- Every recorded receiver node is parented under its declaring package's
node (for receivers with well-formed package paths). -/
def RecvParentInv (cg : CytoGraph) : Prop :=
  ∀ (recv : Var) (id : CytoID), SpaceFree recv.pkg.path →
    alookup cg.idMap (recvFullName recv) = some id →
    ∃ cN pid, alookup cg.Nodes id = some cN ∧
      alookup cg.idMap (pkgFullName recv.pkg) = some pid ∧ cN.data.parent = pid

/-- The state invariant used by the hierarchy theorems. -/
def RegInv (cg : CytoGraph) : Prop :=
  IdsBelow cg.idMap cg.idCounter ∧ RecvParentInv cg

/-! ## Concrete instances used by witnesses and counterexamples -/

def envNone : BuildEnv := ⟨fun _ => false⟩

def optsFF : RenderOptions := ⟨false, false⟩

def pkgA : GoPackage := ⟨"pkg/a", "a"⟩

def objExported : FuncObject := ⟨true⟩

def sigEmpty : Signature := ⟨[], [], none⟩

def fooFunc : Func := ⟨some pkgA, "", some objExported, "Foo", sigEmpty, false⟩

def barFunc : Func := ⟨some pkgA, "", some objExported, "Bar", sigEmpty, false⟩

def edgeFooBar : Edge := ⟨⟨fooFunc⟩, ⟨barFunc⟩, 5, "static call"⟩

/-- The same caller-callee pair as `edgeFooBar`, at another call site. -/
def edgeFooBar6 : Edge := ⟨⟨fooFunc⟩, ⟨barFunc⟩, 6, "static call"⟩

def graphFooBar : CytoGraph := (LoadCallGraph envNone NewCytoGraph [edgeFooBar] optsFF).2

/-- An exported receiver variable of type `a.T`. -/
def recvT : Var := ⟨pkgA, "a.T", false, false, true⟩

/-- An unexported (and neither embedded nor field) receiver variable. -/
def recvUnexp : Var := ⟨pkgA, "a.t", false, false, false⟩

/-- A method on `a.T` (declared in the receiver's package). -/
def methodFunc : Func := ⟨some pkgA, "", some objExported, "(T).Foo", ⟨[], [], some recvT⟩, false⟩

/-- A callee whose `Func.Object()` is nil (e.g. a bound-method wrapper
whose synthetic marker was cleared; shape used only to witness the
`Object() == nil` branch). -/
def noObjFunc : Func := ⟨some pkgA, "", none, "Baz", sigEmpty, false⟩

def edgeFooBaz : Edge := ⟨⟨fooFunc⟩, ⟨noObjFunc⟩, 7, "static call"⟩

/-! ## Theorems -/
theorem baseDigitsAux_congr (b : Nat) : ∀ f1 n, n ≤ f1 → ∀ f2, n ≤ f2 →
    baseDigitsAux b f1 n = baseDigitsAux b f2 n := by
  intro f1
  induction f1 with
  | zero =>
    intro n hn f2 _
    have : n = 0 := Nat.le_zero.mp hn
    subst this
    cases f2 <;> simp [baseDigitsAux]
  | succ f1 ih =>
    intro n hn f2 hn2
    cases f2 with
    | zero =>
      have : n = 0 := Nat.le_zero.mp hn2
      subst this
      simp [baseDigitsAux]
    | succ f2 =>
      cases n with
      | zero => simp [baseDigitsAux]
      | succ m =>
        simp only [baseDigitsAux, if_neg (Nat.succ_ne_zero m)]
        have hdiv : (m+1) / (b+2) < m+1 := Nat.div_lt_self (Nat.succ_pos m) (by omega)
        rw [ih ((m+1) / (b+2)) (by omega) f2 (by omega)]

theorem baseDigits_zero (b : Nat) : baseDigits b 0 = [] := rfl

theorem baseDigits_succ (b n : Nat) :
    baseDigits b (n+1) = baseDigits b ((n+1) / (b+2)) ++ [(n+1) % (b+2)] := by
  unfold baseDigits
  have hdiv : (n+1) / (b+2) < n+1 := Nat.div_lt_self (Nat.succ_pos n) (by omega)
  simp only [baseDigitsAux, if_neg (Nat.succ_ne_zero n)]
  rw [baseDigitsAux_congr b n ((n+1) / (b+2)) (by omega) ((n+1) / (b+2)) (le_refl _)]

theorem baseDigits_nil_iff (b n : Nat) : baseDigits b n = [] ↔ n = 0 := by
  constructor
  · intro h
    cases n with
    | zero => rfl
    | succ m => rw [baseDigits_succ] at h; simp at h
  · intro h; subst h; exact baseDigits_zero b

theorem baseDigits_inj (b : Nat) : ∀ m n : Nat, baseDigits b m = baseDigits b n → m = n := by
  intro m
  induction m using Nat.strong_induction_on with
  | _ m ih =>
    intro n h
    match m, n with
    | 0, 0 => rfl
    | 0, n+1 =>
      rw [baseDigits_zero, baseDigits_succ] at h
      simp at h
    | m+1, 0 =>
      rw [baseDigits_zero, baseDigits_succ] at h
      simp at h
    | m+1, n+1 =>
      rw [baseDigits_succ, baseDigits_succ] at h
      have hlen : ([(m+1) % (b+2)] : List Nat).length = ([(n+1) % (b+2)] : List Nat).length := rfl
      obtain ⟨hpre, hsuf⟩ := List.append_inj' h hlen
      have hdivlt : (m+1) / (b+2) < m+1 := Nat.div_lt_self (Nat.succ_pos m) (by omega)
      have hdiv : (m+1) / (b+2) = (n+1) / (b+2) := ih _ hdivlt _ hpre
      have hmod : (m+1) % (b+2) = (n+1) % (b+2) := by simpa using hsuf
      have h1 := Nat.div_add_mod (m+1) (b+2)
      have h2 := Nat.div_add_mod (n+1) (b+2)
      rw [hdiv, hmod] at h1
      omega

theorem baseDigits_lt (b : Nat) : ∀ n : Nat, ∀ d ∈ baseDigits b n, d < b + 2 := by
  intro n
  induction n using Nat.strong_induction_on with
  | _ n ih =>
    intro d hd
    match n with
    | 0 => rw [baseDigits_zero] at hd; simp at hd
    | n+1 =>
      rw [baseDigits_succ] at hd
      rcases List.mem_append.mp hd with h | h
      · exact ih _ (Nat.div_lt_self (Nat.succ_pos n) (by omega)) d h
      · have : d = (n+1) % (b+2) := by simpa using h
        subst this
        exact Nat.mod_lt _ (by omega)

theorem digitCharLower_inj' : ∀ d1 < 16, ∀ d2 < 16,
    digitCharLower d1 = digitCharLower d2 → d1 = d2 := by decide

theorem digitCharLower_inj (d1 d2 : Nat) (h1 : d1 < 16) (h2 : d2 < 16)
    (h : digitCharLower d1 = digitCharLower d2) : d1 = d2 :=
  digitCharLower_inj' d1 h1 d2 h2 h

theorem map_digitCharLower_inj : ∀ l1 l2 : List Nat,
    (∀ d ∈ l1, d < 16) → (∀ d ∈ l2, d < 16) →
    l1.map digitCharLower = l2.map digitCharLower → l1 = l2 := by
  intro l1
  induction l1 with
  | nil => intro l2 _ _ h; cases l2 <;> simp_all
  | cons a t ihd =>
    intro l2 h1 h2 h
    cases l2 with
    | nil => simp at h
    | cons a2 t2 =>
      simp only [List.map_cons, List.cons.injEq] at h
      have ha : a = a2 :=
        digitCharLower_inj a a2 (h1 a (by simp)) (h2 a2 (by simp)) h.1
      have ht : t = t2 :=
        ihd t2 (fun d hd => h1 d (by simp [hd])) (fun d hd => h2 d (by simp [hd])) h.2
      simp [ha, ht]

theorem formatBase_inj (b m n : Nat) (hb : b + 2 ≤ 16) (hm : 1 ≤ m) (hn : 1 ≤ n)
    (h : String.mk ((baseDigits b m).map digitCharLower)
       = String.mk ((baseDigits b n).map digitCharLower)) : m = n := by
  have hdata : (baseDigits b m).map digitCharLower = (baseDigits b n).map digitCharLower := by
    injection h
  exact baseDigits_inj b m n
    (map_digitCharLower_inj _ _
      (fun d hd => lt_of_lt_of_le (baseDigits_lt b m d hd) hb)
      (fun d hd => lt_of_lt_of_le (baseDigits_lt b n d hd) hb) hdata)

theorem FormatUint16_inj (m n : Nat) (hm : 1 ≤ m) (hn : 1 ≤ n)
    (h : FormatUint16 m = FormatUint16 n) : m = n := by
  unfold FormatUint16 at h
  rw [if_neg (by omega), if_neg (by omega)] at h
  exact formatBase_inj 14 m n (by omega) hm hn h

theorem FormatNat10_ne_zeroStr (n : Nat) (hn : n ≠ 0) : FormatNat10 n ≠ FormatNat10 0 := by
  intro h
  unfold FormatNat10 at h
  rw [if_neg hn, if_pos rfl] at h
  have hdata : (baseDigits 8 n).map digitCharLower = ['0'] := by
    have := congrArg String.data h
    simpa using this
  have hdig : baseDigits 8 n = [0] := by
    have h0 : ([0] : List Nat).map digitCharLower = ['0'] := by decide
    exact map_digitCharLower_inj _ [0]
      (fun d hd => lt_of_lt_of_le (baseDigits_lt 8 n d hd) (by omega))
      (by decide) (hdata.trans h0.symm)
  cases n with
  | zero => exact hn rfl
  | succ k =>
    rw [show baseDigits 8 (k+1) = baseDigits 8 ((k+1) / 10) ++ [(k+1) % 10] from
          baseDigits_succ 8 k] at hdig
    have hlen := congrArg List.length hdig
    simp at hlen
    have hpre : baseDigits 8 ((k+1) / 10) = [] := hlen
    have hdiv : (k+1) / 10 = 0 := (baseDigits_nil_iff 8 _).mp hpre
    rw [hpre] at hdig
    simp at hdig
    have := Nat.div_add_mod (k+1) 10
    omega

theorem FormatNat10_inj (m n : Nat) (h : FormatNat10 m = FormatNat10 n) : m = n := by
  by_cases hm : m = 0 <;> by_cases hn : n = 0
  · omega
  · subst hm; exact absurd h.symm (FormatNat10_ne_zeroStr n hn)
  · subst hn; exact absurd h (FormatNat10_ne_zeroStr m hm)
  · unfold FormatNat10 at h
    rw [if_neg hm, if_neg hn] at h
    exact formatBase_inj 8 m n (by omega) (by omega) (by omega) h

theorem mkId_inj (b1 b2 : Bool) (c1 c2 : Nat) (h1 : 1 ≤ c1) (h2 : 1 ≤ c2)
    (h : mkId b1 c1 = mkId b2 c2) : b1 = b2 ∧ c1 = c2 := by
  unfold mkId at h
  have hdata := congrArg String.data h
  cases b1 <;> cases b2 <;> simp [String.data_append] at hdata
  · exact ⟨rfl, FormatUint16_inj c1 c2 h1 h2 (congrArg String.mk hdata)⟩
  · exact ⟨rfl, FormatUint16_inj c1 c2 h1 h2 (congrArg String.mk hdata)⟩

theorem IdsBelow.mono {l : List (String × CytoID)} {n m : Nat}
    (h : IdsBelow l n) (hnm : n ≤ m) : IdsBelow l m := by
  cases l with
  | nil => trivial
  | cons e rest =>
    obtain ⟨b, c, hc1, hcn, he, hrest⟩ := h
    exact ⟨b, c, hc1, le_trans hcn hnm, he, hrest⟩

theorem IdsBelow.bound {l : List (String × CytoID)} {n : Nat} (h : IdsBelow l n)
    {k : String} {i : CytoID} (hk : alookup l k = some i) :
    ∃ b c, 1 ≤ c ∧ c ≤ n ∧ i = mkId b c := by
  induction l generalizing n with
  | nil => simp [alookup] at hk
  | cons e rest ih =>
    obtain ⟨b, c, hc1, hcn, he, hrest⟩ := h
    unfold alookup at hk
    by_cases hke : k = e.1
    · rw [if_pos hke] at hk
      exact ⟨b, c, hc1, hcn, by rw [← he]; injection hk with h2; exact h2.symm⟩
    · rw [if_neg hke] at hk
      obtain ⟨b', c', hc1', hcn', hi⟩ := ih hrest hk
      exact ⟨b', c', hc1', by omega, hi⟩

theorem IdsBelow.lookup_inj {l : List (String × CytoID)} {n : Nat} (h : IdsBelow l n)
    {k1 k2 : String} {i1 i2 : CytoID}
    (h1 : alookup l k1 = some i1) (h2 : alookup l k2 = some i2) (hne : k1 ≠ k2) :
    i1 ≠ i2 := by
  induction l generalizing n with
  | nil => simp [alookup] at h1
  | cons e rest ih =>
    obtain ⟨b, c, hc1, hcn, he, hrest⟩ := h
    unfold alookup at h1 h2
    by_cases hk1 : k1 = e.1 <;> by_cases hk2 : k2 = e.1
    · exact absurd (hk1.trans hk2.symm) hne
    · rw [if_pos hk1] at h1
      rw [if_neg hk2] at h2
      obtain ⟨b', c', hc1', hcn', hi2⟩ := hrest.bound h2
      injection h1 with h1
      intro hcontra
      rw [← h1, he, hi2] at hcontra
      obtain ⟨-, hcc⟩ := mkId_inj _ _ _ _ hc1 hc1' hcontra
      omega
    · rw [if_neg hk1] at h1
      rw [if_pos hk2] at h2
      obtain ⟨b', c', hc1', hcn', hi1⟩ := hrest.bound h1
      injection h2 with h2
      intro hcontra
      rw [← h2, he, hi1] at hcontra
      obtain ⟨-, hcc⟩ := mkId_inj _ _ _ _ hc1' hc1 hcontra
      omega
    · rw [if_neg hk1] at h1
      rw [if_neg hk2] at h2
      exact ih hrest h1 h2

theorem GetID_idsBelow {cg : CytoGraph} (h : IdsBelow cg.idMap cg.idCounter)
    (k : String) (b : Bool) :
    IdsBelow (GetID cg k b).2.idMap (GetID cg k b).2.idCounter := by
  unfold GetID
  cases hk : alookup cg.idMap k with
  | some i => exact h
  | none =>
    refine ⟨b, cg.idCounter + 1, by omega, le_refl _, rfl, ?_⟩
    exact h.mono (by omega)

theorem getID_keeps_binding {cg : CytoGraph} {k0 : String} {i0 : CytoID}
    (h : alookup cg.idMap k0 = some i0) (k : String) (b : Bool) :
    alookup (GetID cg k b).2.idMap k0 = some i0 := by
  unfold GetID
  cases hk : alookup cg.idMap k with
  | some i => exact h
  | none =>
    have hne : k0 ≠ k := fun hc => by rw [hc, hk] at h; exact Option.noConfusion h
    simp only [alookup, if_neg hne]
    exact h

theorem GetID_binds (cg : CytoGraph) (k : String) (b : Bool) :
    alookup (GetID cg k b).2.idMap k = some (GetID cg k b).1.2 := by
  unfold GetID
  cases hk : alookup cg.idMap k with
  | some i => exact hk
  | none => simp [alookup]

theorem GetID_counter_le (cg : CytoGraph) (k : String) (b : Bool) :
    cg.idCounter ≤ (GetID cg k b).2.idCounter := by
  unfold GetID
  cases hk : alookup cg.idMap k with
  | some i => exact le_refl _
  | none => simp

theorem GetID_found {cg : CytoGraph} {k : String} {i : CytoID} (b : Bool)
    (h : alookup cg.idMap k = some i) : GetID cg k b = ((false, i), cg) := by
  unfold GetID
  rw [h]

theorem GetID_fresh {cg : CytoGraph} {k : String} (b : Bool)
    (h : alookup cg.idMap k = none) :
    GetID cg k b = ((true, mkId b (cg.idCounter + 1)),
      { cg with idCounter := cg.idCounter + 1,
                idMap := (k, mkId b (cg.idCounter + 1)) :: cg.idMap }) := by
  unfold GetID
  rw [h]

theorem lowId_mono {n m : Nat} {i : CytoID} (h : lowId n i) (hnm : n ≤ m) : lowId m i := by
  obtain ⟨b, c, h1, h2, h3⟩ := h
  exact ⟨b, c, h1, le_trans h2 hnm, h3⟩

theorem Extends_refl (cg : CytoGraph) (P : String → Prop) : Extends cg cg P :=
  ⟨fun _ _ h => h, fun _ _ h => Or.inl h, le_refl _, id, fun _ _ => rfl, fun _ h => h⟩

theorem Extends.trans {cg1 cg2 cg3 : CytoGraph} {P Q : String → Prop}
    (h1 : Extends cg1 cg2 P) (h2 : Extends cg2 cg3 Q) :
    Extends cg1 cg3 (fun k => P k ∨ Q k) := by
  refine ⟨fun k i h => h2.keep k i (h1.keep k i h), ?_, le_trans h1.ctr h2.ctr,
    fun h => h2.below (h1.below h), ?_, fun i h => h2.edgesSome i (h1.edgesSome i h)⟩
  · intro k i h
    rcases h2.fresh k i h with h | h
    · rcases h1.fresh k i h with h | h
      · exact Or.inl h
      · exact Or.inr (Or.inl h)
    · exact Or.inr (Or.inr h)
  · intro i hi
    rw [h2.nodesKeep i (lowId_mono hi h1.ctr), h1.nodesKeep i hi]

theorem Extends.weaken {cg cg' : CytoGraph} {P Q : String → Prop}
    (h : Extends cg cg' P) (himp : ∀ k, P k → Q k) : Extends cg cg' Q :=
  ⟨h.keep, fun k i hk => (h.fresh k i hk).imp id (himp k), h.ctr, h.below,
   h.nodesKeep, h.edgesSome⟩

theorem alookup_cons_ne {β : Type} {l : List (String × β)} {k k' : String} {v : β}
    (h : k' ≠ k) : alookup ((k, v) :: l) k' = alookup l k' := by
  simp only [alookup]
  rw [if_neg h]

theorem alookup_cons_self {β : Type} {l : List (String × β)} {k : String} {v : β} :
    alookup ((k, v) :: l) k = some v := by
  simp [alookup]

theorem Extends_GetID (cg : CytoGraph) (k : String) (b : Bool) :
    Extends cg (GetID cg k b).2 (fun k0 => k0 = k) := by
  cases hk : alookup cg.idMap k with
  | some i => rw [GetID_found b hk]; exact Extends_refl cg _
  | none =>
    rw [GetID_fresh b hk]
    refine ⟨?_, ?_, by simp, ?_, fun _ _ => rfl, fun _ h => h⟩
    · intro k0 i0 h
      have hne : k0 ≠ k := fun hc => by rw [hc, hk] at h; exact Option.noConfusion h
      simpa [alookup_cons_ne hne] using h
    · intro k0 i0 h
      by_cases hke : k0 = k
      · exact Or.inr hke
      · rw [alookup_cons_ne hke] at h
        exact Or.inl h
    · intro h
      exact ⟨b, cg.idCounter + 1, by omega, le_refl _, rfl, h.mono (by omega)⟩

theorem lowId_ne_newId {n c : Nat} {i : CytoID} {b : Bool} (h : lowId n i) (hc : n < c) :
    i ≠ mkId b c := by
  obtain ⟨b0, c0, h1, h2, h3⟩ := h
  intro hcontra
  rw [h3] at hcontra
  obtain ⟨-, hcc⟩ := mkId_inj b0 b c0 c h1 (by omega) hcontra
  omega

theorem Extends_ProcessPkg (cg : CytoGraph) (pkg : GoPackage) :
    Extends cg (ProcessPkg cg pkg).2 (fun k0 => k0 = pkgFullName pkg) := by
  cases hk : alookup cg.idMap (pkgFullName pkg) with
  | some i =>
    unfold ProcessPkg
    rw [GetID_found true hk]
    exact Extends_refl cg _
  | none =>
    have hmid := Extends_GetID cg (pkgFullName pkg) true
    unfold ProcessPkg
    rw [GetID_fresh true hk] at hmid ⊢
    refine ⟨hmid.keep, hmid.fresh, hmid.ctr, hmid.below, ?_, hmid.edgesSome⟩
    intro i hi
    have hne : i ≠ mkId true (cg.idCounter + 1) := lowId_ne_newId hi (by omega)
    simpa [alookup_cons_ne hne] using hmid.nodesKeep i hi

theorem ProcessPkg_existing {cg : CytoGraph} {pkg : GoPackage} {i : CytoID}
    (h : alookup cg.idMap (pkgFullName pkg) = some i) : ProcessPkg cg pkg = (i, cg) := by
  unfold ProcessPkg
  rw [GetID_found true h]

theorem ProcessPkg_binds (cg : CytoGraph) (pkg : GoPackage) :
    alookup (ProcessPkg cg pkg).2.idMap (pkgFullName pkg) = some (ProcessPkg cg pkg).1 := by
  cases hk : alookup cg.idMap (pkgFullName pkg) with
  | some i => rw [ProcessPkg_existing hk]; exact hk
  | none =>
    unfold ProcessPkg
    rw [GetID_fresh true hk]
    exact alookup_cons_self

theorem ProcessPkg_edges (cg : CytoGraph) (pkg : GoPackage) :
    (ProcessPkg cg pkg).2.Edges = cg.Edges := by
  cases hk : alookup cg.idMap (pkgFullName pkg) with
  | some i => rw [ProcessPkg_existing hk]
  | none =>
    unfold ProcessPkg
    rw [GetID_fresh true hk]


theorem pkgFullName_head (p : GoPackage) : (pkgFullName p).data.head? = some 'p' := by
  simp [pkgFullName, String.data_append]

theorem recvFullName_head (r : Var) : (recvFullName r).data.head? = some 'r' := by
  simp [recvFullName, String.data_append]

theorem funcFullName_head (n : Node) : (funcFullName n).data.head? = some 'f' := by
  simp [funcFullName, String.data_append]

theorem edgeFullName_head (e : Edge) : (edgeFullName e).data.head? = some 'c' := by
  simp [edgeFullName, String.data_append]

theorem pkgFullName_notCall (p : GoPackage) : NotCallKey (pkgFullName p) := by
  unfold NotCallKey
  rw [pkgFullName_head]
  simp

theorem recvFullName_notCall (r : Var) : NotCallKey (recvFullName r) := by
  unfold NotCallKey
  rw [recvFullName_head]
  simp

theorem funcFullName_notCall (n : Node) : NotCallKey (funcFullName n) := by
  unfold NotCallKey
  rw [funcFullName_head]
  simp

theorem alookup_cons_isSome {β : Type} {l : List (String × β)} {k k' : String} {v : β}
    (h : (alookup l k').isSome) : (alookup ((k, v) :: l) k').isSome := by
  by_cases hke : k' = k
  · subst hke
    rw [alookup_cons_self]
    rfl
  · rw [alookup_cons_ne hke]
    exact h

theorem ProcessRecv_existing {cg : CytoGraph} {recv : Var} {i : CytoID}
    (h : alookup cg.idMap (recvFullName recv) = some i) : ProcessRecv cg recv = (i, cg) := by
  unfold ProcessRecv
  rw [GetID_found true h]

theorem Extends_ProcessRecv (cg : CytoGraph) (recv : Var) :
    Extends cg (ProcessRecv cg recv).2
      (fun k0 => k0 = recvFullName recv ∨ k0 = pkgFullName recv.pkg) := by
  cases hk : alookup cg.idMap (recvFullName recv) with
  | some i =>
    rw [ProcessRecv_existing hk]
    exact Extends_refl cg _
  | none =>
    have h1 : Extends cg (GetID cg (recvFullName recv) true).2 (fun k0 => k0 = recvFullName recv) :=
      Extends_GetID cg (recvFullName recv) true
    have h2 := Extends_ProcessPkg (GetID cg (recvFullName recv) true).2 recv.pkg
    have h12 := h1.trans h2
    unfold ProcessRecv
    rw [GetID_fresh true hk] at h12 ⊢
    refine ⟨h12.keep, h12.fresh, h12.ctr, h12.below, ?_, h12.edgesSome⟩
    intro i hi
    have hne : i ≠ mkId true (cg.idCounter + 1) := lowId_ne_newId hi (by omega)
    simpa [alookup_cons_ne hne] using h12.nodesKeep i hi

theorem ProcessRecv_binds (cg : CytoGraph) (recv : Var) :
    alookup (ProcessRecv cg recv).2.idMap (recvFullName recv)
      = some (ProcessRecv cg recv).1 := by
  cases hk : alookup cg.idMap (recvFullName recv) with
  | some i => rw [ProcessRecv_existing hk]; exact hk
  | none =>
    have h2 := Extends_ProcessPkg (GetID cg (recvFullName recv) true).2 recv.pkg
    have hbind := GetID_binds cg (recvFullName recv) true
    have hkeep := h2.keep _ _ hbind
    unfold ProcessRecv
    rw [GetID_fresh true hk]
    rw [GetID_fresh true hk] at hkeep
    exact hkeep

theorem ProcessRecv_edges (cg : CytoGraph) (recv : Var) :
    (ProcessRecv cg recv).2.Edges = cg.Edges := by
  cases hk : alookup cg.idMap (recvFullName recv) with
  | some i => rw [ProcessRecv_existing hk]
  | none =>
    unfold ProcessRecv
    rw [GetID_fresh true hk]
    have := ProcessPkg_edges
      { cg with idCounter := cg.idCounter + 1,
                idMap := (recvFullName recv, mkId true (cg.idCounter + 1)) :: cg.idMap } recv.pkg
    exact this

theorem ProcessNode_existing {env : BuildEnv} {cg : CytoGraph} {node : Node} {i : CytoID}
    (h : alookup cg.idMap (funcFullName node) = some i) :
    ProcessNode env cg node = (i, cg) := by
  unfold ProcessNode
  rw [GetID_found true h]

theorem Extends_ProcessNode (env : BuildEnv) (cg : CytoGraph) (node : Node) :
    Extends cg (ProcessNode env cg node).2 NotCallKey := by
  cases hk : alookup cg.idMap (funcFullName node) with
  | some i =>
    rw [ProcessNode_existing hk]
    exact Extends_refl cg _
  | none =>
    have h1 : Extends cg (GetID cg (funcFullName node) true).2 NotCallKey :=
      (Extends_GetID cg (funcFullName node) true).weaken
        (fun k hk0 => hk0 ▸ funcFullName_notCall node)
    have h2 : Extends (GetID cg (funcFullName node) true).2
        (ProcessPkg (GetID cg (funcFullName node) true).2 node.func.pkgD).2 NotCallKey :=
      (Extends_ProcessPkg _ node.func.pkgD).weaken
        (fun k hk0 => hk0 ▸ pkgFullName_notCall node.func.pkgD)
    have h12 := (h1.trans h2).weaken (fun k hk0 => hk0.elim id id)
    have h3 : Extends cg
        (match node.func.sig.recv with
          | some recv => ProcessRecv (ProcessPkg (GetID cg (funcFullName node) true).2 node.func.pkgD).2 recv
          | none => ((ProcessPkg (GetID cg (funcFullName node) true).2 node.func.pkgD).1,
                     (ProcessPkg (GetID cg (funcFullName node) true).2 node.func.pkgD).2)).2
        NotCallKey := by
      cases hrecv : node.func.sig.recv with
      | some recv =>
        have h4 : Extends (ProcessPkg (GetID cg (funcFullName node) true).2 node.func.pkgD).2
            (ProcessRecv (ProcessPkg (GetID cg (funcFullName node) true).2 node.func.pkgD).2 recv).2
            NotCallKey :=
          (Extends_ProcessRecv _ recv).weaken
            (fun k hk0 => hk0.elim (fun h => h ▸ recvFullName_notCall recv)
              (fun h => h ▸ pkgFullName_notCall recv.pkg))
        exact (h12.trans h4).weaken (fun k hk0 => hk0.elim id id)
      | none => exact h12
    unfold ProcessNode
    rw [GetID_fresh true hk] at h3 ⊢
    refine ⟨h3.keep, h3.fresh, h3.ctr, h3.below, ?_, h3.edgesSome⟩
    intro i hi
    have hne : i ≠ mkId true (cg.idCounter + 1) := lowId_ne_newId hi (by omega)
    cases hrecv : node.func.sig.recv with
    | some recv =>
      rw [hrecv] at h3
      simpa [hrecv, alookup_cons_ne hne] using h3.nodesKeep i hi
    | none =>
      rw [hrecv] at h3
      simpa [hrecv, alookup_cons_ne hne] using h3.nodesKeep i hi

theorem ProcessNode_binds (env : BuildEnv) (cg : CytoGraph) (node : Node) :
    alookup (ProcessNode env cg node).2.idMap (funcFullName node)
      = some (ProcessNode env cg node).1 := by
  cases hk : alookup cg.idMap (funcFullName node) with
  | some i => rw [ProcessNode_existing hk]; exact hk
  | none =>
    have hbind := GetID_binds cg (funcFullName node) true
    have h2 := Extends_ProcessPkg (GetID cg (funcFullName node) true).2 node.func.pkgD
    have hkeep2 := h2.keep _ _ hbind
    cases hrecv : node.func.sig.recv with
    | some recv =>
      have h3 := Extends_ProcessRecv
        (ProcessPkg (GetID cg (funcFullName node) true).2 node.func.pkgD).2 recv
      have hkeep3 := h3.keep _ _ hkeep2
      unfold ProcessNode
      rw [GetID_fresh true hk]
      rw [GetID_fresh true hk] at hkeep3
      simp only [hrecv]
      exact hkeep3
    | none =>
      unfold ProcessNode
      rw [GetID_fresh true hk]
      rw [GetID_fresh true hk] at hkeep2
      simp only [hrecv]
      exact hkeep2

theorem ProcessNode_edges (env : BuildEnv) (cg : CytoGraph) (node : Node) :
    (ProcessNode env cg node).2.Edges = cg.Edges := by
  cases hk : alookup cg.idMap (funcFullName node) with
  | some i => rw [ProcessNode_existing hk]
  | none =>
    unfold ProcessNode
    rw [GetID_fresh true hk]
    cases hrecv : node.func.sig.recv with
    | some recv =>
      simp only [hrecv]
      rw [ProcessRecv_edges, ProcessPkg_edges]
    | none =>
      simp only [hrecv]
      rw [ProcessPkg_edges]

theorem ProcessEdge_existing {env : BuildEnv} {cg : CytoGraph} {edge : Edge} {i : CytoID}
    (h : alookup cg.idMap (edgeFullName edge) = some i) :
    ProcessEdge env cg edge = (i, cg) := by
  unfold ProcessEdge
  rw [GetID_found true h]

theorem Extends_ProcessEdge (env : BuildEnv) (cg : CytoGraph) (edge : Edge) :
    Extends cg (ProcessEdge env cg edge).2
      (fun k0 => k0 = edgeFullName edge ∨ NotCallKey k0) := by
  cases hk : alookup cg.idMap (edgeFullName edge) with
  | some i =>
    rw [ProcessEdge_existing hk]
    exact Extends_refl cg _
  | none =>
    have h1 : Extends cg (GetID cg (edgeFullName edge) true).2
        (fun k0 => k0 = edgeFullName edge) := Extends_GetID cg (edgeFullName edge) true
    have h2 := Extends_ProcessNode env (GetID cg (edgeFullName edge) true).2 edge.caller
    have h3 := Extends_ProcessNode env
      (ProcessNode env (GetID cg (edgeFullName edge) true).2 edge.caller).2 edge.callee
    have h123 := ((h1.trans h2).trans h3).weaken
      (fun k hk0 => hk0.elim (fun h0 => h0.elim Or.inl Or.inr) Or.inr)
    unfold ProcessEdge
    rw [GetID_fresh true hk] at h123 ⊢
    refine ⟨h123.keep, h123.fresh, h123.ctr, h123.below, h123.nodesKeep, ?_⟩
    intro i hi
    exact alookup_cons_isSome (h123.edgesSome i hi)

theorem ProcessEdge_binds (env : BuildEnv) (cg : CytoGraph) (edge : Edge) :
    alookup (ProcessEdge env cg edge).2.idMap (edgeFullName edge)
      = some (ProcessEdge env cg edge).1 := by
  cases hk : alookup cg.idMap (edgeFullName edge) with
  | some i => rw [ProcessEdge_existing hk]; exact hk
  | none =>
    have hbind := GetID_binds cg (edgeFullName edge) true
    have h2 := Extends_ProcessNode env (GetID cg (edgeFullName edge) true).2 edge.caller
    have h3 := Extends_ProcessNode env
      (ProcessNode env (GetID cg (edgeFullName edge) true).2 edge.caller).2 edge.callee
    have hkeep := h3.keep _ _ (h2.keep _ _ hbind)
    unfold ProcessEdge
    rw [GetID_fresh true hk]
    rw [GetID_fresh true hk] at hkeep
    exact hkeep

theorem ProcessEdge_fresh_spec (env : BuildEnv) (cg : CytoGraph) (edge : Edge)
    (hk : alookup cg.idMap (edgeFullName edge) = none) :
    (ProcessEdge env cg edge).1 = mkId true (cg.idCounter + 1) ∧
    ∃ ce, alookup (ProcessEdge env cg edge).2.Edges (ProcessEdge env cg edge).1 = some ce ∧
      alookup (ProcessEdge env cg edge).2.idMap (funcFullName edge.caller)
        = some ce.data.source ∧
      alookup (ProcessEdge env cg edge).2.idMap (funcFullName edge.callee)
        = some ce.data.target ∧
      ce.classes = splitSpace edge.description := by
  have hbindC := ProcessNode_binds env (GetID cg (edgeFullName edge) true).2 edge.caller
  have h3 := Extends_ProcessNode env
    (ProcessNode env (GetID cg (edgeFullName edge) true).2 edge.caller).2 edge.callee
  have hkeepC := h3.keep _ _ hbindC
  have hbindD := ProcessNode_binds env
    (ProcessNode env (GetID cg (edgeFullName edge) true).2 edge.caller).2 edge.callee
  unfold ProcessEdge
  rw [GetID_fresh true hk]
  rw [GetID_fresh true hk] at hkeepC hbindD
  exact ⟨rfl, _, alookup_cons_self, hkeepC, hbindD, rfl⟩

theorem ProcessEdge_stored (env : BuildEnv) (cg : CytoGraph) (edge : Edge) (hES : ES cg) :
    (alookup (ProcessEdge env cg edge).2.Edges (ProcessEdge env cg edge).1).isSome := by
  cases hk : alookup cg.idMap (edgeFullName edge) with
  | some i =>
    rw [ProcessEdge_existing hk]
    exact hES _ i (edgeFullName_head edge) hk
  | none =>
    obtain ⟨-, ce, hce, -⟩ := ProcessEdge_fresh_spec env cg edge hk
    rw [hce]
    rfl

theorem ES_ProcessEdge (env : BuildEnv) (cg : CytoGraph) (edge : Edge) (hES : ES cg) :
    ES (ProcessEdge env cg edge).2 := by
  intro k i hhead hbind
  have hext := Extends_ProcessEdge env cg edge
  rcases hext.fresh k i hbind with hold | hnew
  · exact hext.edgesSome i (hES k i hhead hold)
  · rcases hnew with hkey | hnc
    · subst hkey
      have hbind2 := ProcessEdge_binds env cg edge
      rw [hbind] at hbind2
      injection hbind2 with hbi
      rw [hbi]
      exact ProcessEdge_stored env cg edge hES
    · exact absurd hhead hnc

theorem visitEdge_eq (env : BuildEnv) (opts : RenderOptions) (cg : CytoGraph) (edge : Edge) :
    visitEdge env opts cg edge
      = (none, if admitted env opts edge then (ProcessEdge env cg edge).2 else cg) := by
  unfold visitEdge admitted
  cases h1 : isSynthetic edge <;> cases h2 : isShared edge <;>
    cases h3 : inGoRoot env edge.callee <;> cases h4 : isUnexported edge.callee <;>
    cases h5 : opts.IncludeGoRoot <;> cases h6 : opts.IncludeUnexported <;> simp

theorem ES_visitEdge (env : BuildEnv) (opts : RenderOptions) (cg : CytoGraph) (edge : Edge)
    (hES : ES cg) : ES (visitEdge env opts cg edge).2 := by
  rw [visitEdge_eq]
  by_cases h : admitted env opts edge
  · rw [if_pos h]
    exact ES_ProcessEdge env cg edge hES
  · rw [if_neg h]
    exact hES

theorem edgePresent_ProcessEdge (env : BuildEnv) (cg : CytoGraph) (e0 e : Edge) (hES : ES cg) :
    edgePresent (ProcessEdge env cg e0).2 e ↔
      edgePresent cg e ∨ edgeFullName e = edgeFullName e0 := by
  constructor
  · rintro ⟨i, hbind, hsome⟩
    by_cases hkey : edgeFullName e = edgeFullName e0
    · exact Or.inr hkey
    · have hext := Extends_ProcessEdge env cg e0
      rcases hext.fresh _ i hbind with hold | hnew
      · exact Or.inl ⟨i, hold, hES _ i (edgeFullName_head e) hold⟩
      · rcases hnew with h | h
        · exact absurd h hkey
        · exact absurd (edgeFullName_head e) h
  · intro h
    rcases h with ⟨i, hbind, hsome⟩ | hkey
    · have hext := Extends_ProcessEdge env cg e0
      exact ⟨i, hext.keep _ i hbind, hext.edgesSome i hsome⟩
    · rw [edgePresent, hkey]
      refine ⟨(ProcessEdge env cg e0).1, ProcessEdge_binds env cg e0, ?_⟩
      exact ProcessEdge_stored env cg e0 hES

theorem edgePresent_visit (env : BuildEnv) (opts : RenderOptions) (cg : CytoGraph)
    (e0 e : Edge) (hES : ES cg) :
    edgePresent (visitEdge env opts cg e0).2 e ↔
      edgePresent cg e ∨ (admitted env opts e0 = true ∧ edgeFullName e = edgeFullName e0) := by
  rw [visitEdge_eq]
  by_cases h : admitted env opts e0
  · rw [if_pos h]
    rw [edgePresent_ProcessEdge env cg e0 e hES]
    simp [h]
  · rw [if_neg h]
    simp [h]

theorem edgePresent_fold (env : BuildEnv) (opts : RenderOptions) :
    ∀ (es : List Edge) (cg : CytoGraph), ES cg → ∀ e,
      (edgePresent (LoadCallGraph env cg es opts).2 e ↔
        edgePresent cg e ∨ ∃ e' ∈ es, admitted env opts e' = true ∧ edgeFullName e = edgeFullName e') := by
  intro es
  induction es with
  | nil =>
    intro cg hES e
    simp [LoadCallGraph, GraphVisitEdges]
  | cons e0 rest ih =>
    intro cg hES e
    have hstep : LoadCallGraph env cg (e0 :: rest) opts
        = GraphVisitEdges rest (visitEdge env opts) (visitEdge env opts cg e0).2 := by
      show (match visitEdge env opts cg e0 with
            | (some err, cg1) => (some err, cg1)
            | (none, cg1) => GraphVisitEdges rest (visitEdge env opts) cg1)
          = GraphVisitEdges rest (visitEdge env opts) (visitEdge env opts cg e0).2
      rw [visitEdge_eq]
    rw [hstep]
    have hES1 := ES_visitEdge env opts cg e0 hES
    have ihr := ih (visitEdge env opts cg e0).2 hES1 e
    unfold LoadCallGraph at ihr
    rw [ihr, edgePresent_visit env opts cg e0 e hES]
    constructor
    · rintro ((h | ⟨ha, hk⟩) | ⟨e', he', ha, hk⟩)
      · exact Or.inl h
      · exact Or.inr ⟨e0, by simp, ha, hk⟩
      · exact Or.inr ⟨e', by simp [he'], ha, hk⟩
    · rintro (h | ⟨e', he', ha, hk⟩)
      · exact Or.inl (Or.inl h)
      · rcases List.mem_cons.mp he' with rfl | hmem
        · exact Or.inl (Or.inr ⟨ha, hk⟩)
        · exact Or.inr ⟨e', hmem, ha, hk⟩

theorem ProcessPkg_fresh_spec (cg : CytoGraph) (pkg : GoPackage)
    (hk : alookup cg.idMap (pkgFullName pkg) = none) :
    (ProcessPkg cg pkg).1 = mkId true (cg.idCounter + 1) ∧
    ∃ cN, alookup (ProcessPkg cg pkg).2.Nodes (ProcessPkg cg pkg).1 = some cN ∧
      cN.data.label = pkg.name ∧ cN.data.description = some pkg.path ∧
      cN.data.parent = ("") ∧ cN.classes = [("package")] := by
  unfold ProcessPkg
  rw [GetID_fresh true hk]
  exact ⟨rfl, _, alookup_cons_self, rfl, rfl, rfl, rfl⟩

theorem ProcessRecv_fresh_spec (cg : CytoGraph) (recv : Var)
    (hk : alookup cg.idMap (recvFullName recv) = none) :
    (ProcessRecv cg recv).1 = mkId true (cg.idCounter + 1) ∧
    ∃ cN, alookup (ProcessRecv cg recv).2.Nodes (ProcessRecv cg recv).1 = some cN ∧
      cN.data.parent
        = (ProcessPkg (GetID cg (recvFullName recv) true).2 recv.pkg).1 ∧
      cN.data.label = recvLabel recv.typeString ∧
      cN.classes = [("type")]
        ++ (if recv.embedded then [("embedded")] else [])
        ++ (if recv.isField then [("field")] else [])
        ++ (if !recv.exported then [("unexported2")] else []) := by
  unfold ProcessRecv
  rw [GetID_fresh true hk]
  exact ⟨rfl, _, alookup_cons_self, rfl, rfl, rfl⟩

theorem ProcessNode_fresh_spec (env : BuildEnv) (cg : CytoGraph) (node : Node)
    (hk : alookup cg.idMap (funcFullName node) = none) :
    (ProcessNode env cg node).1 = mkId true (cg.idCounter + 1) ∧
    ∃ cN, alookup (ProcessNode env cg node).2.Nodes (ProcessNode env cg node).1 = some cN ∧
      cN.data.parent
        = (match node.func.sig.recv with
           | some recv => (ProcessRecv
               (ProcessPkg (GetID cg (funcFullName node) true).2 node.func.pkgD).2 recv).1
           | none => (ProcessPkg (GetID cg (funcFullName node) true).2 node.func.pkgD).1) ∧
      cN.classes = (if inGoRoot env node then [("go_root")] else [])
        ++ (if isGlobal node then [("global")] else [])
        ++ (if isUnexported node then [("unexported")] else []) := by
  unfold ProcessNode
  rw [GetID_fresh true hk]
  cases hrecv : node.func.sig.recv with
  | some recv =>
    simp only [hrecv]
    exact ⟨trivial, _, alookup_cons_self, rfl, rfl⟩
  | none =>
    simp only [hrecv]
    exact ⟨trivial, _, alookup_cons_self, rfl, rfl⟩

theorem admit_iff (env : BuildEnv) (opts : RenderOptions) (e : Edge) :
    admitted env opts e = true ↔
      (isSynthetic e = false ∧ isShared e = false ∧
       (inGoRoot env e.callee = true → opts.IncludeGoRoot = true) ∧
       (isUnexported e.callee = true → opts.IncludeUnexported = true)) := by
  unfold admitted
  cases h1 : isSynthetic e <;> cases h2 : isShared e <;>
    cases h3 : inGoRoot env e.callee <;> cases h4 : isUnexported e.callee <;>
    cases h5 : opts.IncludeGoRoot <;> cases h6 : opts.IncludeUnexported <;> simp

/-- C1: an edge processed by `LoadCallGraph` (from a fresh graph) is in
the output if and only if some processed edge with its call-site key
passes all four filters: non-synthetic callee, caller with an enclosing
package, callee in the Go root only if `IncludeGoRoot`, callee unexported
only if `IncludeUnexported`.  In particular a synthetic-callee or
package-less-caller edge is never present, whatever the options. -/
theorem LoadCallGraph_filter_iff (env : BuildEnv) (opts : RenderOptions)
    (es : List Edge) (e : Edge) :
    edgePresent (LoadCallGraph env NewCytoGraph es opts).2 e ↔
      ∃ e' ∈ es, edgeFullName e = edgeFullName e' ∧
        isSynthetic e' = false ∧ isShared e' = false ∧
        (inGoRoot env e'.callee = true → opts.IncludeGoRoot = true) ∧
        (isUnexported e'.callee = true → opts.IncludeUnexported = true) := by
  have hES : ES NewCytoGraph := by
    intro k i hhead hbind
    simp [alookup, NewCytoGraph] at hbind
  have hnew : ¬ edgePresent NewCytoGraph e := by
    rintro ⟨i, hbind, -⟩
    simp [alookup, NewCytoGraph] at hbind
  rw [edgePresent_fold env opts es NewCytoGraph hES e]
  constructor
  · rintro (h | ⟨e', he', ha, hk⟩)
    · exact absurd h hnew
    · exact ⟨e', he', hk, (admit_iff env opts e').mp ha⟩
  · rintro ⟨e', he', hk, hcond⟩
    exact Or.inr ⟨e', he', (admit_iff env opts e').mpr hcond, hk⟩

/-- C10: the per-edge visitor always returns a nil error, so
`LoadCallGraph` returns a nil error on every call graph and every
options value, the empty graph included. -/
theorem LoadCallGraph_no_error (env : BuildEnv) (cg : CytoGraph) (es : List Edge)
    (opts : RenderOptions) : (LoadCallGraph env cg es opts).1 = none := by
  induction es generalizing cg with
  | nil => rfl
  | cons e rest ih =>
    show (match visitEdge env opts cg e with
          | (some err, cg1) => (some err, cg1)
          | (none, cg1) => GraphVisitEdges rest (visitEdge env opts) cg1).1 = none
    rw [visitEdge_eq]
    exact ih _

theorem runGetIDs_idsBelow (ops : List (String × Bool)) :
    IdsBelow (runGetIDs NewCytoGraph ops).idMap (runGetIDs NewCytoGraph ops).idCounter := by
  have hgen : ∀ (l : List (String × Bool)) (cg : CytoGraph),
      IdsBelow cg.idMap cg.idCounter →
      IdsBelow (runGetIDs cg l).idMap (runGetIDs cg l).idCounter := by
    intro l
    induction l with
    | nil => intro cg h; exact h
    | cons kb rest ih =>
      intro cg h
      obtain ⟨k1, b1⟩ := kb
      exact ih _ (GetID_idsBelow h k1 b1)
  exact hgen ops NewCytoGraph trivial

/-- C3: over any reachable registry, `GetID` is idempotent per key (the
same ID on every later call, with no state change and no reallocation),
allocates exactly once, on the first call, from the strictly increased
counter, extending the key map by exactly that binding; distinct keys
always hold distinct IDs; and an ID allocated in the node namespace never
collides with one allocated in the edge namespace. -/
theorem GetID_registry_spec (ops : List (String × Bool)) (k k2 : String) (b b2 : Bool) :
    ((GetID (GetID (runGetIDs NewCytoGraph ops) k b).2 k b2).1.1 = false ∧
      (GetID (GetID (runGetIDs NewCytoGraph ops) k b).2 k b2).1.2
        = (GetID (runGetIDs NewCytoGraph ops) k b).1.2 ∧
      (GetID (GetID (runGetIDs NewCytoGraph ops) k b).2 k b2).2
        = (GetID (runGetIDs NewCytoGraph ops) k b).2) ∧
    ((GetID (runGetIDs NewCytoGraph ops) k b).1.1 = true ↔
      alookup (runGetIDs NewCytoGraph ops).idMap k = none) ∧
    ((GetID (runGetIDs NewCytoGraph ops) k b).1.1 = true →
      (GetID (runGetIDs NewCytoGraph ops) k b).2.idCounter
        = (runGetIDs NewCytoGraph ops).idCounter + 1 ∧
      (GetID (runGetIDs NewCytoGraph ops) k b).1.2
        = mkId b ((runGetIDs NewCytoGraph ops).idCounter + 1) ∧
      (GetID (runGetIDs NewCytoGraph ops) k b).2.idMap
        = (k, (GetID (runGetIDs NewCytoGraph ops) k b).1.2)
            :: (runGetIDs NewCytoGraph ops).idMap) ∧
    ((GetID (runGetIDs NewCytoGraph ops) k b).1.1 = false →
      (GetID (runGetIDs NewCytoGraph ops) k b).2 = runGetIDs NewCytoGraph ops) ∧
    (∀ k1 i1 i2, alookup (runGetIDs NewCytoGraph ops).idMap k1 = some i1 →
      alookup (runGetIDs NewCytoGraph ops).idMap k2 = some i2 → k1 ≠ k2 → i1 ≠ i2) ∧
    (∀ (cg2 : CytoGraph) (kx : String),
      (GetID (runGetIDs NewCytoGraph ops) kx true).1.1 = true →
      (GetID cg2 k2 false).1.1 = true →
      (GetID (runGetIDs NewCytoGraph ops) kx true).1.2 ≠ (GetID cg2 k2 false).1.2) := by
  set cg := runGetIDs NewCytoGraph ops with hcg
  have hbelow : IdsBelow cg.idMap cg.idCounter := runGetIDs_idsBelow ops
  refine ⟨?_, ?_, ?_, ?_, ?_, ?_⟩
  · have hbind : alookup (GetID cg k b).2.idMap k = some (GetID cg k b).1.2 :=
      GetID_binds cg k b
    rw [GetID_found b2 hbind]
    exact ⟨rfl, rfl, rfl⟩
  · cases hk : alookup cg.idMap k with
    | some i => rw [GetID_found b hk]; simp
    | none => rw [GetID_fresh b hk]; simp
  · intro hnew
    cases hk : alookup cg.idMap k with
    | some i =>
      rw [GetID_found b hk] at hnew
      exact Bool.noConfusion hnew
    | none =>
      rw [GetID_fresh b hk]
      exact ⟨rfl, rfl, rfl⟩
  · intro hold
    cases hk : alookup cg.idMap k with
    | some i =>
      rw [GetID_found b hk]
    | none =>
      rw [GetID_fresh b hk] at hold
      exact Bool.noConfusion hold
  · intro k1 i1 i2 h1 h2 hne
    exact hbelow.lookup_inj h1 h2 hne
  · intro cg2 kx hx h2
    cases hkx : alookup cg.idMap kx with
    | some i =>
      rw [GetID_found true hkx] at hx
      exact Bool.noConfusion hx
    | none =>
      cases hk2 : alookup cg2.idMap k2 with
      | some i =>
        rw [GetID_found false hk2] at h2
        exact Bool.noConfusion h2
      | none =>
        rw [GetID_fresh true hkx, GetID_fresh false hk2]
        intro hcontra
        obtain ⟨hb, -⟩ := mkId_inj true false _ _ (by omega) (by omega) hcontra
        exact Bool.noConfusion hb

theorem edgeFullName_pos_inj {e1 e2 : Edge}
    (hc : nodeFullName e1.caller = nodeFullName e2.caller)
    (hd : nodeFullName e1.callee = nodeFullName e2.callee)
    (h : edgeFullName e1 = edgeFullName e2) : e1.pos = e2.pos := by
  have hdata := congrArg String.data h
  simp only [edgeFullName, String.data_append, List.append_assoc, hc, hd] at hdata
  have h2 := List.append_cancel_left hdata
  have h3 := List.append_cancel_right h2
  exact FormatNat10_inj _ _ (congrArg String.mk h3)

theorem edgeFullName_congr {e1 e2 : Edge} (hc : nodeFullName e1.caller = nodeFullName e2.caller)
    (hd : nodeFullName e1.callee = nodeFullName e2.callee) (hp : e1.pos = e2.pos) :
    edgeFullName e1 = edgeFullName e2 := by
  unfold edgeFullName nodeFullName at *
  rw [hc, hd, hp]

theorem ProcessEdge_edges_ne (env : BuildEnv) (cg : CytoGraph) (e : Edge) (i : CytoID)
    (hne : i ≠ (ProcessEdge env cg e).1) :
    alookup (ProcessEdge env cg e).2.Edges i = alookup cg.Edges i := by
  cases hk : alookup cg.idMap (edgeFullName e) with
  | some j => rw [ProcessEdge_existing hk]
  | none =>
    unfold ProcessEdge at hne ⊢
    rw [GetID_fresh true hk] at hne ⊢
    rw [alookup_cons_ne hne]
    rw [ProcessNode_edges env _ e.callee, ProcessNode_edges env _ e.caller]

theorem ProcessEdge_ctr_fresh (env : BuildEnv) (cg : CytoGraph) (e : Edge)
    (hk : alookup cg.idMap (edgeFullName e) = none) :
    cg.idCounter + 1 ≤ (ProcessEdge env cg e).2.idCounter := by
  have h2 := Extends_ProcessNode env (GetID cg (edgeFullName e) true).2 e.caller
  have h3 := Extends_ProcessNode env
    (ProcessNode env (GetID cg (edgeFullName e) true).2 e.caller).2 e.callee
  have hc2 := h2.ctr
  have hc3 := h3.ctr
  unfold ProcessEdge
  rw [GetID_fresh true hk]
  rw [GetID_fresh true hk] at hc2 hc3
  simp only at hc2 hc3 ⊢
  omega

/-- C7: for two admitted edges with the same caller and callee, distinct
source positions give two distinct edge entries that share their source
and target node IDs, while an identical source position gives a single
deduplicated entry (the second processing changes nothing). -/
theorem ProcessEdge_callsite_spec (env : BuildEnv) (cg : CytoGraph) (e1 e2 : Edge)
    (hcaller : e2.caller = e1.caller) (hcallee : e2.callee = e1.callee)
    (h1 : alookup cg.idMap (edgeFullName e1) = none)
    (h2 : alookup cg.idMap (edgeFullName e2) = none) :
    (e1.pos ≠ e2.pos →
      (ProcessEdge env (ProcessEdge env cg e1).2 e2).1 ≠ (ProcessEdge env cg e1).1 ∧
      ∃ ce1 ce2,
        alookup (ProcessEdge env (ProcessEdge env cg e1).2 e2).2.Edges
          (ProcessEdge env cg e1).1 = some ce1 ∧
        alookup (ProcessEdge env (ProcessEdge env cg e1).2 e2).2.Edges
          (ProcessEdge env (ProcessEdge env cg e1).2 e2).1 = some ce2 ∧
        ce2.data.source = ce1.data.source ∧ ce2.data.target = ce1.data.target) ∧
    (e1.pos = e2.pos →
      ProcessEdge env (ProcessEdge env cg e1).2 e2
        = ((ProcessEdge env cg e1).1, (ProcessEdge env cg e1).2)) := by
  have hcn : nodeFullName e2.caller = nodeFullName e1.caller := by rw [hcaller]
  have hdn : nodeFullName e2.callee = nodeFullName e1.callee := by rw [hcallee]
  constructor
  · intro hp
    have hkeys : edgeFullName e2 ≠ edgeFullName e1 := by
      intro h
      exact hp (edgeFullName_pos_inj hcn hdn h).symm
    have hk2 : alookup (ProcessEdge env cg e1).2.idMap (edgeFullName e2) = none := by
      cases hk : alookup (ProcessEdge env cg e1).2.idMap (edgeFullName e2) with
      | none => rfl
      | some i =>
        rcases (Extends_ProcessEdge env cg e1).fresh _ i hk with hold | hnew
        · rw [h2] at hold; exact Option.noConfusion hold
        · rcases hnew with hh | hh
          · exact absurd hh hkeys
          · exact absurd (edgeFullName_head e2) hh
    obtain ⟨hid1, ce1, hce1, hsrc1, htgt1, -⟩ := ProcessEdge_fresh_spec env cg e1 h1
    obtain ⟨hid2, ce2, hce2, hsrc2, htgt2, -⟩ :=
      ProcessEdge_fresh_spec env (ProcessEdge env cg e1).2 e2 hk2
    have hctr := ProcessEdge_ctr_fresh env cg e1 h1
    have hne : (ProcessEdge env (ProcessEdge env cg e1).2 e2).1 ≠ (ProcessEdge env cg e1).1 := by
      rw [hid1, hid2]
      intro hcontra
      obtain ⟨-, hcc⟩ := mkId_inj _ _ _ _ (by omega) (by omega) hcontra
      omega
    refine ⟨hne, ce1, ce2, ?_, hce2, ?_, ?_⟩
    · rw [ProcessEdge_edges_ne env (ProcessEdge env cg e1).2 e2 _ (Ne.symm hne)]
      exact hce1
    · have hkeep := (Extends_ProcessEdge env (ProcessEdge env cg e1).2 e2).keep _ _ hsrc1
      rw [hcaller] at hsrc2
      rw [hsrc2] at hkeep
      exact Option.some.inj hkeep
    · have hkeep := (Extends_ProcessEdge env (ProcessEdge env cg e1).2 e2).keep _ _ htgt1
      rw [hcallee] at htgt2
      rw [htgt2] at hkeep
      exact Option.some.inj hkeep
  · intro hp
    have hkey : edgeFullName e2 = edgeFullName e1 := edgeFullName_congr hcn hdn hp.symm
    have hbind := ProcessEdge_binds env cg e1
    rw [← hkey] at hbind
    exact ProcessEdge_existing hbind

theorem sep_split_unique : ∀ (p1 p2 t1 t2 : List Char), ' ' ∉ p1 → ' ' ∉ p2 →
    p1 ++ (' ' :: '~' :: ' ' :: t1) = p2 ++ (' ' :: '~' :: ' ' :: t2) →
    p1 = p2 ∧ t1 = t2 := by
  intro p1
  induction p1 with
  | nil =>
    intro p2 t1 t2 _ hsp2 h
    cases p2 with
    | nil =>
      simp at h
      exact ⟨rfl, h⟩
    | cons c r =>
      simp at h
      obtain ⟨hc, -⟩ := h
      exact absurd (by rw [hc]; simp : ' ' ∈ c :: r) hsp2
  | cons c r ih =>
    intro p2 t1 t2 hsp1 hsp2 h
    cases p2 with
    | nil =>
      simp at h
      obtain ⟨hc, -⟩ := h
      exact absurd (by rw [← hc]; simp : ' ' ∈ c :: r) hsp1
    | cons c2 r2 =>
      simp at h
      obtain ⟨hc, hrest⟩ := h
      have hsp1' : ' ' ∉ r := fun hm => hsp1 (by simp [hm])
      have hsp2' : ' ' ∉ r2 := fun hm => hsp2 (by simp [hm])
      obtain ⟨hp, ht⟩ := ih r2 t1 t2 hsp1' hsp2' hrest
      exact ⟨by rw [hc, hp], ht⟩

theorem recvFullName_inj {r1 r2 : Var} (hs1 : SpaceFree r1.pkg.path)
    (hs2 : SpaceFree r2.pkg.path) (h : recvFullName r1 = recvFullName r2) :
    r1.pkg.path = r2.pkg.path ∧ r1.typeString = r2.typeString := by
  have hdata := congrArg String.data h
  simp only [recvFullName, String.data_append, List.append_assoc] at hdata
  have hdata2 := List.append_cancel_left hdata
  simp only [List.cons_append, List.nil_append] at hdata2
  obtain ⟨hp, ht⟩ := sep_split_unique _ _ _ _ hs1 hs2 hdata2
  exact ⟨congrArg String.mk hp, congrArg String.mk ht⟩

theorem ProcessRecv_ctr_fresh (cg : CytoGraph) (recv : Var)
    (hk : alookup cg.idMap (recvFullName recv) = none) :
    cg.idCounter + 1 ≤ (ProcessRecv cg recv).2.idCounter := by
  have h2 := Extends_ProcessPkg (GetID cg (recvFullName recv) true).2 recv.pkg
  have hc2 := h2.ctr
  unfold ProcessRecv
  rw [GetID_fresh true hk]
  rw [GetID_fresh true hk] at hc2
  simp only at hc2 ⊢
  omega

/-- C8: a receiver's deduplication key contains both the declaring package
path and the full type string, so (package paths being space-free, as
Go import paths are) two receivers differing in either component have
distinct keys and are given distinct type nodes. -/
theorem ProcessRecv_identity_key (cg : CytoGraph) (r1 r2 : Var)
    (hb : IdsBelow cg.idMap cg.idCounter)
    (hs1 : SpaceFree r1.pkg.path) (hs2 : SpaceFree r2.pkg.path)
    (hne : r1.pkg.path ≠ r2.pkg.path ∨ r1.typeString ≠ r2.typeString) :
    recvFullName r1 ≠ recvFullName r2 ∧
    (ProcessRecv (ProcessRecv cg r1).2 r2).1 ≠ (ProcessRecv cg r1).1 := by
  have hkeys : recvFullName r1 ≠ recvFullName r2 := by
    intro h
    obtain ⟨hp, ht⟩ := recvFullName_inj hs1 hs2 h
    rcases hne with hh | hh
    · exact hh hp
    · exact hh ht
  refine ⟨hkeys, ?_⟩
  cases hk1 : alookup cg.idMap (recvFullName r1) with
  | some i1 =>
    rw [ProcessRecv_existing hk1]
    cases hk2 : alookup cg.idMap (recvFullName r2) with
    | some i2 =>
      rw [ProcessRecv_existing hk2]
      exact hb.lookup_inj hk2 hk1 (Ne.symm hkeys)
    | none =>
      have hid2 : (ProcessRecv cg r2).1 = mkId true (cg.idCounter + 1) :=
        (ProcessRecv_fresh_spec cg r2 hk2).1
      rw [hid2]
      obtain ⟨b0, c0, hc01, hc0n, hi1⟩ := hb.bound hk1
      rw [hi1]
      intro hcontra
      obtain ⟨-, hcc⟩ := mkId_inj _ _ _ _ (by omega) hc01 hcontra
      omega
  | none =>
    have hid1 : (ProcessRecv cg r1).1 = mkId true (cg.idCounter + 1) :=
      (ProcessRecv_fresh_spec cg r1 hk1).1
    cases hk2 : alookup (ProcessRecv cg r1).2.idMap (recvFullName r2) with
    | some i2 =>
      rw [ProcessRecv_existing hk2, hid1]
      rcases (Extends_ProcessRecv cg r1).fresh _ i2 hk2 with hold | hnew
      · obtain ⟨b0, c0, hc01, hc0n, hi2⟩ := hb.bound hold
        rw [hi2]
        intro hcontra
        obtain ⟨-, hcc⟩ := mkId_inj _ _ _ _ hc01 (by omega) hcontra
        omega
      · rcases hnew with hh | hh
        · exact absurd hh.symm hkeys
        · exfalso
          have hr := recvFullName_head r2
          rw [hh, pkgFullName_head] at hr
          exact absurd hr (by decide)
    | none =>
      have hid2 : (ProcessRecv (ProcessRecv cg r1).2 r2).1
          = mkId true ((ProcessRecv cg r1).2.idCounter + 1) :=
        (ProcessRecv_fresh_spec (ProcessRecv cg r1).2 r2 hk2).1
      have hctr := ProcessRecv_ctr_fresh cg r1 hk1
      rw [hid1, hid2]
      intro hcontra
      obtain ⟨-, hcc⟩ := mkId_inj _ _ _ _ (by omega) (by omega) hcontra
      omega

theorem ProcessRecv_fresh_idMap (cg : CytoGraph) (recv : Var)
    (hk : alookup cg.idMap (recvFullName recv) = none) :
    (ProcessRecv cg recv).2.idMap
      = (ProcessPkg (GetID cg (recvFullName recv) true).2 recv.pkg).2.idMap := by
  unfold ProcessRecv
  rw [GetID_fresh true hk]

theorem ProcessRecv_fresh_nodes_ne (cg : CytoGraph) (recv : Var) (i : CytoID)
    (hk : alookup cg.idMap (recvFullName recv) = none)
    (hne : i ≠ (ProcessRecv cg recv).1) :
    alookup (ProcessRecv cg recv).2.Nodes i
      = alookup (ProcessPkg (GetID cg (recvFullName recv) true).2 recv.pkg).2.Nodes i := by
  unfold ProcessRecv at hne ⊢
  rw [GetID_fresh true hk] at hne ⊢
  exact alookup_cons_ne hne

/-- C2: a function node created for a function with a receiver is parented
under the type node of that receiver, which is itself parented under the
package node of the receiver's declaring package — under the Go invariant
that a method is declared in its receiver's package, that package node is
the function's declaring package's node; a function node created for a
receiver-less function is parented directly under its package node. -/
theorem ProcessNode_hierarchy (env : BuildEnv) (cg : CytoGraph) (node : Node)
    (hb : IdsBelow cg.idMap cg.idCounter) (hrp : RecvParentInv cg)
    (hfresh : alookup cg.idMap (funcFullName node) = none) :
    ∃ cN, alookup (ProcessNode env cg node).2.Nodes (ProcessNode env cg node).1 = some cN ∧
      (∀ recv, node.func.sig.recv = some recv → SpaceFree recv.pkg.path →
        ∃ rid cR pid,
          cN.data.parent = rid ∧
          alookup (ProcessNode env cg node).2.idMap (recvFullName recv) = some rid ∧
          alookup (ProcessNode env cg node).2.Nodes rid = some cR ∧
          cR.data.parent = pid ∧
          alookup (ProcessNode env cg node).2.idMap (pkgFullName recv.pkg) = some pid ∧
          (recv.pkg = node.func.pkgD →
            alookup (ProcessNode env cg node).2.idMap (pkgFullName node.func.pkgD)
              = some pid)) ∧
      (node.func.sig.recv = none →
        ∃ pid, cN.data.parent = pid ∧
          alookup (ProcessNode env cg node).2.idMap (pkgFullName node.func.pkgD)
            = some pid) := by
  obtain ⟨hid, cN, hcN, hparent, hclasses⟩ := ProcessNode_fresh_spec env cg node hfresh
  refine ⟨cN, hcN, ?_, ?_⟩
  · intro recv hrecv hs
    rw [hrecv] at hparent
    have hidMap : (ProcessNode env cg node).2.idMap
        = (ProcessRecv (ProcessPkg (GetID cg (funcFullName node) true).2
            node.func.pkgD).2 recv).2.idMap := by
      unfold ProcessNode
      rw [GetID_fresh true hfresh]
      simp only [hrecv]
    have hnodes_ne : ∀ i, i ≠ (ProcessNode env cg node).1 →
        alookup (ProcessNode env cg node).2.Nodes i
          = alookup (ProcessRecv (ProcessPkg (GetID cg (funcFullName node) true).2
              node.func.pkgD).2 recv).2.Nodes i := by
      intro i hne
      unfold ProcessNode at hne ⊢
      rw [GetID_fresh true hfresh] at hne ⊢
      simp only [hrecv] at hne ⊢
      exact alookup_cons_ne hne
    have hctr1 : (GetID cg (funcFullName node) true).2.idCounter = cg.idCounter + 1 := by
      rw [GetID_fresh true hfresh]
    set cg1 := (GetID cg (funcFullName node) true).2 with hcg1
    set pr2 := (ProcessPkg cg1 node.func.pkgD).2 with hpr2
    have hE1 : Extends cg cg1 (fun k0 => k0 = funcFullName node) :=
      Extends_GetID cg (funcFullName node) true
    have hE2 : Extends cg1 pr2 (fun k0 => k0 = pkgFullName node.func.pkgD) :=
      Extends_ProcessPkg cg1 node.func.pkgD
    have hE12 := hE1.trans hE2
    have hbindR := ProcessRecv_binds pr2 recv
    refine ⟨(ProcessRecv pr2 recv).1, ?_⟩
    cases hkR : alookup pr2.idMap (recvFullName recv) with
    | none =>
      obtain ⟨hidR, cR, hcR, hparR, -, -⟩ := ProcessRecv_fresh_spec pr2 recv hkR
      have hbindP := ProcessPkg_binds (GetID pr2 (recvFullName recv) true).2 recv.pkg
      refine ⟨cR, (ProcessPkg (GetID pr2 (recvFullName recv) true).2 recv.pkg).1,
        hparent, ?_, ?_, hparR, ?_, ?_⟩
      · rw [hidMap]
        exact hbindR
      · have hctrP : cg.idCounter + 1 ≤ pr2.idCounter := by
          have := hE2.ctr
          omega
        have hne : (ProcessRecv pr2 recv).1 ≠ (ProcessNode env cg node).1 := by
          rw [hidR, hid]
          intro hcontra
          obtain ⟨-, hcc⟩ := mkId_inj _ _ _ _ (by omega) (by omega) hcontra
          omega
        rw [hnodes_ne _ hne]
        exact hcR
      · rw [hidMap, ProcessRecv_fresh_idMap pr2 recv hkR]
        exact hbindP
      · intro hpkgeq
        rw [← hpkgeq]
        rw [hidMap, ProcessRecv_fresh_idMap pr2 recv hkR]
        exact hbindP
    | some rid0 =>
      have hR := ProcessRecv_existing hkR
      have hbindcg : alookup cg.idMap (recvFullName recv) = some rid0 := by
        rcases hE12.fresh _ rid0 hkR with hold | hnew
        · exact hold
        · rcases hnew with hh | hh
          · exfalso
            have hr := recvFullName_head recv
            rw [hh, funcFullName_head] at hr
            exact absurd hr (by decide)
          · exfalso
            have hr := recvFullName_head recv
            rw [hh, pkgFullName_head] at hr
            exact absurd hr (by decide)
      obtain ⟨cR, pid, hcRcg, hpidcg, hparR⟩ := hrp recv rid0 hs hbindcg
      have hlow : lowId cg.idCounter rid0 := by
        obtain ⟨b0, c0, hc01, hc0n, hi⟩ := hb.bound hbindcg
        exact ⟨b0, c0, hc01, hc0n, hi⟩
      refine ⟨cR, pid, ?_, ?_, ?_, hparR, ?_, ?_⟩
      · rw [hparent]
      · rw [hidMap, hR]
        exact hkR
      · have hne : rid0 ≠ (ProcessNode env cg node).1 := by
          rw [hid]
          exact lowId_ne_newId hlow (by omega)
        have hne' : (ProcessRecv pr2 recv).1 ≠ (ProcessNode env cg node).1 := by
          rw [hR]
          exact hne
        rw [hnodes_ne _ hne', hR]
        show alookup pr2.Nodes rid0 = some cR
        rw [hE12.nodesKeep _ hlow]
        exact hcRcg
      · rw [hidMap, hR]
        exact hE12.keep _ _ hpidcg
      · intro hpkgeq
        rw [← hpkgeq, hidMap, hR]
        exact hE12.keep _ _ hpidcg
  · intro hrecv
    rw [hrecv] at hparent
    have hidMap : (ProcessNode env cg node).2.idMap
        = (ProcessPkg (GetID cg (funcFullName node) true).2 node.func.pkgD).2.idMap := by
      unfold ProcessNode
      rw [GetID_fresh true hfresh]
      simp only [hrecv]
    refine ⟨(ProcessPkg (GetID cg (funcFullName node) true).2 node.func.pkgD).1,
      hparent, ?_⟩
    rw [hidMap]
    exact ProcessPkg_binds (GetID cg (funcFullName node) true).2 node.func.pkgD

/-- C6 (amended): a type node created by `ProcessRecv` always carries the
tag `type`; it carries `embedded` iff the receiver is an embedded field,
`field` iff it is accessed as a field, and — for an unexported receiver
type — the marker the code actually attaches is `unexported2`, while the
plain `unexported` tag is never attached to a type node. -/
theorem ProcessRecv_classes_spec (cg : CytoGraph) (recv : Var)
    (hfresh : alookup cg.idMap (recvFullName recv) = none) :
    ∃ cN, alookup (ProcessRecv cg recv).2.Nodes (ProcessRecv cg recv).1 = some cN ∧
      ("type") ∈ cN.classes ∧
      (("embedded") ∈ cN.classes ↔ recv.embedded = true) ∧
      (("field") ∈ cN.classes ↔ recv.isField = true) ∧
      (("unexported2") ∈ cN.classes ↔ recv.exported = false) ∧
      ("unexported") ∉ cN.classes := by
  obtain ⟨-, cN, hcN, -, -, hclasses⟩ := ProcessRecv_fresh_spec cg recv hfresh
  refine ⟨cN, hcN, ?_⟩
  rw [hclasses]
  cases recv.embedded <;> cases recv.isField <;> cases recv.exported <;> decide

/-- C6 counterexample: for an unexported, non-embedded, non-field
receiver, the created type node does not carry the `unexported` class
(it carries `unexported2` instead), refuting the claim as stated. -/
theorem ProcessRecv_unexported_tag_cex :
    recvUnexp.exported = false ∧
    ∃ cN, alookup (ProcessRecv NewCytoGraph recvUnexp).2.Nodes
        (ProcessRecv NewCytoGraph recvUnexp).1 = some cN ∧
      ("unexported") ∉ cN.classes ∧ ("unexported2") ∈ cN.classes := by
  exact ⟨rfl, _, rfl, by decide, by decide⟩

/-- C9: a callee function whose declaration has no source-level object is
never classified unexported: `isUnexported` is false on it, the visitor
admits its edges independently of `IncludeUnexported`, and the function
node created for such a function never receives the `unexported` class. -/
theorem noObject_never_unexported (env : BuildEnv) (opts : RenderOptions)
    (cg : CytoGraph) (e : Edge) (node : Node)
    (heObj : e.callee.func.obj = none) (hnObj : node.func.obj = none)
    (hfresh : alookup cg.idMap (funcFullName node) = none) :
    isUnexported e.callee = false ∧
    visitEdge env opts cg e = visitEdge env ⟨opts.IncludeGoRoot, true⟩ cg e ∧
    ∃ cN, alookup (ProcessNode env cg node).2.Nodes (ProcessNode env cg node).1 = some cN ∧
      ("unexported") ∉ cN.classes := by
  have hiu : isUnexported e.callee = false := by
    unfold isUnexported
    rw [heObj]
  refine ⟨hiu, ?_, ?_⟩
  · rw [visitEdge_eq, visitEdge_eq]
    have hadm : admitted env opts e = admitted env ⟨opts.IncludeGoRoot, true⟩ e := by
      unfold admitted
      rw [hiu]
      simp
    rw [hadm]
  · obtain ⟨-, cN, hcN, -, hclasses⟩ := ProcessNode_fresh_spec env cg node hfresh
    refine ⟨cN, hcN, ?_⟩
    have hiu2 : isUnexported node = false := by
      unfold isUnexported
      rw [hnObj]
    rw [hclasses, hiu2]
    intro hmem
    rcases List.mem_append.mp hmem with hm | hm
    · rcases List.mem_append.mp hm with hm2 | hm2
      · by_cases hgr : inGoRoot env node = true
        · rw [if_pos hgr] at hm2
          exact absurd (List.mem_singleton.mp hm2) (by decide)
        · rw [if_neg hgr] at hm2
          exact absurd hm2 (List.not_mem_nil _)
      · by_cases hgl : isGlobal node = true
        · rw [if_pos hgl] at hm2
          exact absurd (List.mem_singleton.mp hm2) (by decide)
        · rw [if_neg hgl] at hm2
          exact absurd hm2 (List.not_mem_nil _)
    · simp at hm

/-- C5 counterexample: the two orders of the same two fingerprint hash
values blend to different colours (the running mix enters with weight 0.3,
so later values dominate), refuting order-independence as stated. -/
theorem integersToColor_order_cex :
    ([0, 4294967295] : List Nat).Perm [4294967295, 0] ∧
    ¬ (integersToColor [0, 4294967295]).Req (integersToColor [4294967295, 0]) := by
  exact ⟨by decide, by decide⟩

/-- C5 (amended): the blended colour is invariant under permutations of
fingerprint lists of length at most one (where the fold structure is
trivial); for longer lists the pairwise HCL blend is order-sensitive. -/
theorem integersToColor_perm_short (l1 l2 : List Nat) (hp : l1.Perm l2)
    (hlen : l1.length ≤ 1) : integersToColor l1 = integersToColor l2 := by
  have heq : l1 = l2 := by
    cases l1 with
    | nil => exact hp.nil_eq
    | cons a t =>
      cases t with
      | nil =>
        have hl2 : l2.length = 1 := by rw [← hp.length_eq]; rfl
        obtain ⟨b, hb⟩ := List.length_eq_one.mp hl2
        subst hb
        have ha : a ∈ [b] := hp.mem_iff.mp (by simp)
        rw [List.mem_singleton.mp ha]
      | cons c t2 => simp at hlen
  rw [heq]

theorem integersToColor_perm_short_witness :
    ([5] : List Nat).Perm [5] ∧ ([5] : List Nat).length ≤ 1 ∧
    integersToColor [5] = integersToColor [5] :=
  ⟨by decide, by decide, integersToColor_perm_short [5] [5] (by decide) (by decide)⟩

/-- C4 counterexample: one admitted edge, assembled from a fresh graph by
`LoadCallGraph`; two valid map-iteration orders of the node collection
(both permutations of the stored keys, as Go's unspecified map range
order can produce on two independent runs) yield different output
bytes. -/
theorem WriteJson_order_cex :
    (["n4", "n2", "n3"] : List CytoID).Perm (nodeKeys graphFooBar) ∧
    (["n2", "n4", "n3"] : List CytoID).Perm (nodeKeys graphFooBar) ∧
    (["n1"] : List CytoID).Perm (edgeKeys graphFooBar) ∧
    WriteJson graphFooBar ["n4", "n2", "n3"] ["n1"]
      ≠ WriteJson graphFooBar ["n2", "n4", "n3"] ["n1"] :=
  ⟨by decide, by decide, by decide, by decide⟩

/-- C4 (amended): assembly is a pure function of the presented edge
sequence and the options, so two runs build the same graph; across any
two valid map-iteration orders the serialized node and edge record lists
agree up to permutation, and the output bytes coincide whenever the
iteration orders coincide — but Go leaves the orders unspecified, so
byte-identical output across independent runs is not guaranteed. -/
theorem LoadCallGraph_WriteJson_upToPerm (env : BuildEnv) (opts : RenderOptions)
    (es : List Edge) (no1 no2 eo1 eo2 : List CytoID)
    (h1 : no1.Perm (nodeKeys (LoadCallGraph env NewCytoGraph es opts).2))
    (h2 : no2.Perm (nodeKeys (LoadCallGraph env NewCytoGraph es opts).2))
    (h3 : eo1.Perm (edgeKeys (LoadCallGraph env NewCytoGraph es opts).2))
    (h4 : eo2.Perm (edgeKeys (LoadCallGraph env NewCytoGraph es opts).2)) :
    (no1.filterMap
        (fun id => alookup (LoadCallGraph env NewCytoGraph es opts).2.Nodes id)).Perm
      (no2.filterMap
        (fun id => alookup (LoadCallGraph env NewCytoGraph es opts).2.Nodes id)) ∧
    (eo1.filterMap
        (fun id => alookup (LoadCallGraph env NewCytoGraph es opts).2.Edges id)).Perm
      (eo2.filterMap
        (fun id => alookup (LoadCallGraph env NewCytoGraph es opts).2.Edges id)) ∧
    (no1 = no2 → eo1 = eo2 →
      WriteJson (LoadCallGraph env NewCytoGraph es opts).2 no1 eo1
        = WriteJson (LoadCallGraph env NewCytoGraph es opts).2 no2 eo2) := by
  refine ⟨?_, ?_, ?_⟩
  · exact (h1.trans h2.symm).filterMap _
  · exact (h3.trans h4.symm).filterMap _
  · intro hno heo
    rw [hno, heo]

theorem ProcessNode_hierarchy_witness :
    ∃ cN rid cR pid,
      alookup (ProcessNode envNone NewCytoGraph ⟨methodFunc⟩).2.Nodes
        (ProcessNode envNone NewCytoGraph ⟨methodFunc⟩).1 = some cN ∧
      cN.data.parent = rid ∧
      alookup (ProcessNode envNone NewCytoGraph ⟨methodFunc⟩).2.Nodes rid = some cR ∧
      cR.data.parent = pid := by
  obtain ⟨cN, hcN, hrecv, -⟩ := ProcessNode_hierarchy envNone NewCytoGraph ⟨methodFunc⟩
    trivial
    (by intro recv id hs h; simp [NewCytoGraph, alookup] at h)
    rfl
  obtain ⟨rid, cR, pid, hpar, -, hcR, hparR, -, -⟩ :=
    hrecv recvT rfl (show (' ') ∉ (("pkg/a") : String).data from by decide)
  exact ⟨cN, rid, cR, pid, hcN, hpar, hcR, hparR⟩

theorem ProcessRecv_classes_spec_witness :
    ∃ cN, alookup (ProcessRecv NewCytoGraph recvT).2.Nodes
        (ProcessRecv NewCytoGraph recvT).1 = some cN ∧ ("type") ∈ cN.classes := by
  obtain ⟨cN, hcN, htype, -⟩ := ProcessRecv_classes_spec NewCytoGraph recvT rfl
  exact ⟨cN, hcN, htype⟩

theorem ProcessEdge_callsite_spec_witness :
    (ProcessEdge envNone (ProcessEdge envNone NewCytoGraph edgeFooBar).2 edgeFooBar6).1
      ≠ (ProcessEdge envNone NewCytoGraph edgeFooBar).1 := by
  obtain ⟨hA, -⟩ := ProcessEdge_callsite_spec envNone NewCytoGraph edgeFooBar edgeFooBar6
    rfl rfl rfl rfl
  exact (hA (by decide)).1

theorem ProcessRecv_identity_key_witness :
    recvFullName recvT ≠ recvFullName recvUnexp ∧
    (ProcessRecv (ProcessRecv NewCytoGraph recvT).2 recvUnexp).1
      ≠ (ProcessRecv NewCytoGraph recvT).1 :=
  ProcessRecv_identity_key NewCytoGraph recvT recvUnexp trivial
    (show (' ') ∉ (("pkg/a") : String).data from by decide)
    (show (' ') ∉ (("pkg/a") : String).data from by decide)
    (Or.inr (by decide))

theorem noObject_never_unexported_witness :
    isUnexported edgeFooBaz.callee = false ∧
    visitEdge envNone optsFF NewCytoGraph edgeFooBaz
      = visitEdge envNone ⟨optsFF.IncludeGoRoot, true⟩ NewCytoGraph edgeFooBaz ∧
    ∃ cN, alookup (ProcessNode envNone NewCytoGraph ⟨noObjFunc⟩).2.Nodes
        (ProcessNode envNone NewCytoGraph ⟨noObjFunc⟩).1 = some cN ∧
      ("unexported") ∉ cN.classes :=
  noObject_never_unexported envNone optsFF NewCytoGraph edgeFooBaz ⟨noObjFunc⟩ rfl rfl rfl

theorem LoadCallGraph_WriteJson_upToPerm_witness :
    ((["n4", "n2", "n3"] : List CytoID).filterMap
        (fun id => alookup graphFooBar.Nodes id)).Perm
      ((["n2", "n4", "n3"] : List CytoID).filterMap
        (fun id => alookup graphFooBar.Nodes id)) := by
  exact (LoadCallGraph_WriteJson_upToPerm envNone optsFF [edgeFooBar]
    (["n4", "n2", "n3"]) (["n2", "n4", "n3"]) (["n1"]) (["n1"])
    (by decide) (by decide) (by decide) (by decide)).1

end Render
